import Mathlib

/-!
# A shallow embedding of the wasm-bindgen macro collector and JS shim builder

This file embeds, in Lean 4, the two source files of the repository:

* `crates/macro-support/src/parser.rs` — the binding-declaration collector
  that lowers decorated Rust declarations into the backend AST
  (`BindgenAttrs` and its accessors, `ForeignItemFn/Type/Static::convert`,
  `ItemForeignMod::macro_parse`, `ItemEnum::macro_parse`,
  `extract_first_ty_param`, `operation_kind`, …);
* `crates/cli-support/src/js/binding.rs` — the `Builder` that assembles the
  JS function shim (`process`, `finalize`, `typescript_signature`).

Translation conventions:
* Rust `Result<T, Diagnostic>` becomes `Except String T` (a diagnostic is
  modelled by its message; spans are dropped).  Where several diagnostics are
  accumulated before reporting (`Diagnostic::from_vec`) the error type is
  `List String`.
* A Rust `panic!` / `assert!` / out-of-bounds index has no value to return;
  it is modelled as an `Except.error` whose message starts with either
  `panic:` or `assertion failed`.
* Machine integers (`u32`, `u64`, `usize`) are modelled by `Nat` with the
  explicit bound checks the source performs.
* The `Cell<bool>` consumed-flags on attributes and the process-wide
  parsed/checked audit counters only feed the strict-mode "unused attribute"
  lint and a sanity assertion; they are not modelled.
* External collaborators that the two files consume are kept abstract:
  the `Incoming`/`Outgoing` instruction evaluators and the `invoke`
  callback are function parameters of `Builder.process`, and
  `backend::util::ShortHash` (which lives outside the two source files) is
  a field of `ShortHashFns`, modelled from the spec as an uninterpreted
  deterministic hash.
-/

set_option autoImplicit false

/-- `Vec::collect::<Result<_, _>>` / `try`-mapping over a list: stop at the
first error.  (Spelled out rather than `List.mapM` so that proofs can induct
on it directly.) -/
def mapMExcept {α β : Type} (f : α → Except String β) : List α → Except String (List β)
  | [] => .ok []
  | a :: rest =>
    match f a with
    | .error e => .error e
    | .ok b =>
      match mapMExcept f rest with
      | .error e => .error e
      | .ok bs => .ok (b :: bs)

/-- Rust's `str::trim`, re-implemented over the character list so that it is
kernel-reducible (Lean's own `String.trim` does not reduce definitionally):
drop whitespace from the front, then from the back. -/
def rsTrimLeftList : List Char → List Char
  | [] => []
  | c :: rest => if c.isWhitespace then rsTrimLeftList rest else c :: rest

/-- Rust's `str::trim` on a `String`. -/
def rsTrim (s : String) : String :=
  String.mk ((rsTrimLeftList ((rsTrimLeftList s.data).reverse)).reverse)

/-! ## The syn-side type model

`syn::Type` as far as the collector inspects it: paths with optional
qself/leading-colon and angle-bracketed generic arguments, references,
tuples; everything else is `otherTy`.  Lifetimes can occur on a reference or
as a generic argument, which is what `assert_no_lifetimes`' visitor can find
in a function signature in this model. -/

mutual
inductive SynType where
  | typePath (qselfSome : Bool) (path : SynPath)
  | reference (lifetime : Bool) (mutable : Bool) (elem : SynType)
  | tuple (elems : List SynType)
  | otherTy
inductive SynPath where
  | mk (leading_colon : Bool) (segments : List PathSegment)
inductive PathSegment where
  | mk (ident : String) (arguments : PathArguments)
inductive PathArguments where
  | nonePA
  | angleBracketed (args : List GenericArg)
  | parenthesized
inductive GenericArg where
  | lifetimeArg
  | typeArg (t : SynType)
  | otherArg
end

def SynPath.leading_colon : SynPath → Bool
  | .mk lc _ => lc

def SynPath.segments : SynPath → List PathSegment
  | .mk _ segs => segs

def PathSegment.ident : PathSegment → String
  | .mk i _ => i

def PathSegment.arguments : PathSegment → PathArguments
  | .mk _ a => a

/-- `backend::util::ident_ty`: the plain path type made of a single ident. -/
def ident_ty (i : String) : SynType :=
  .typePath false (.mk false [.mk i .nonePA])

mutual
/-- Does a type contain a lifetime?  This is what the
`syn::visit::Visit::visit_lifetime` walker of `assert_no_lifetimes` can
observe on this model of `syn::Type`. -/
def SynType.hasLifetime : SynType → Bool
  | .typePath _ p => p.pathHasLifetime
  | .reference lt _ elem => lt || elem.hasLifetime
  | .tuple elems => tysHaveLifetime elems
  | .otherTy => false
def SynPath.pathHasLifetime : SynPath → Bool
  | .mk _ segs => segsHaveLifetime segs
def segsHaveLifetime : List PathSegment → Bool
  | [] => false
  | s :: rest => s.segHasLifetime || segsHaveLifetime rest
def PathSegment.segHasLifetime : PathSegment → Bool
  | .mk _ args => args.argsHaveLifetime
def PathArguments.argsHaveLifetime : PathArguments → Bool
  | .nonePA => false
  | .angleBracketed gs => gensHaveLifetime gs
  | .parenthesized => false
def gensHaveLifetime : List GenericArg → Bool
  | [] => false
  | g :: rest => g.genHasLifetime || gensHaveLifetime rest
def GenericArg.genHasLifetime : GenericArg → Bool
  | .lifetimeArg => true
  | .typeArg t => t.hasLifetime
  | .otherArg => false
def tysHaveLifetime : List SynType → Bool
  | [] => false
  | t :: rest => t.hasLifetime || tysHaveLifetime rest
end

/-! ## The attribute vocabulary (`BindgenAttr`, `BindgenAttrs`) -/

/-- The possible attributes in the `#[wasm_bindgen]`, one constructor per
line of the `attrgen!` schema (spans dropped; the `(Span, String, Span)`
shape keeps only the string). -/
inductive BindgenAttr where
  | Catch
  | Constructor
  | Method
  | StaticMethodOf (i : String)
  | JsNamespace (i : String)
  | Module (s : String)
  | RawModule (s : String)
  | InlineJs (s : String)
  | Getter (i : Option String)
  | Setter (i : Option String)
  | IndexingGetter
  | IndexingSetter
  | IndexingDeleter
  | Structural
  | Final
  | Readonly
  | JsName (s : String)
  | JsClass (s : String)
  | IsTypeOf (e : String)
  | Extends (p : SynPath)
  | VendorPrefix (i : String)
  | Variadic
  | TypescriptCustomSection
  | Start
  | Skip

/-- Parsed attributes from a `#[wasm_bindgen(..)]`.  The per-attribute
`Cell<bool>` consumed flag is not modelled (it only drives the strict-mode
unused-attribute lint and the parsed/checked counter assertion). -/
structure BindgenAttrs where
  attrs : List BindgenAttr

/-- Each generated accessor returns the payload of the first attribute of
its kind, like the `methods!`-generated find-first accessors. -/
def BindgenAttrs.catch_ (a : BindgenAttrs) : Option Unit :=
  a.attrs.findSome? fun x => match x with | .Catch => some () | _ => none

def BindgenAttrs.constructor (a : BindgenAttrs) : Option Unit :=
  a.attrs.findSome? fun x => match x with | .Constructor => some () | _ => none

def BindgenAttrs.method (a : BindgenAttrs) : Option Unit :=
  a.attrs.findSome? fun x => match x with | .Method => some () | _ => none

def BindgenAttrs.static_method_of (a : BindgenAttrs) : Option String :=
  a.attrs.findSome? fun x => match x with | .StaticMethodOf i => some i | _ => none

def BindgenAttrs.js_namespace (a : BindgenAttrs) : Option String :=
  a.attrs.findSome? fun x => match x with | .JsNamespace i => some i | _ => none

def BindgenAttrs.module (a : BindgenAttrs) : Option String :=
  a.attrs.findSome? fun x => match x with | .Module s => some s | _ => none

def BindgenAttrs.raw_module (a : BindgenAttrs) : Option String :=
  a.attrs.findSome? fun x => match x with | .RawModule s => some s | _ => none

def BindgenAttrs.inline_js (a : BindgenAttrs) : Option String :=
  a.attrs.findSome? fun x => match x with | .InlineJs s => some s | _ => none

def BindgenAttrs.getter (a : BindgenAttrs) : Option (Option String) :=
  a.attrs.findSome? fun x => match x with | .Getter i => some i | _ => none

def BindgenAttrs.setter (a : BindgenAttrs) : Option (Option String) :=
  a.attrs.findSome? fun x => match x with | .Setter i => some i | _ => none

def BindgenAttrs.indexing_getter (a : BindgenAttrs) : Option Unit :=
  a.attrs.findSome? fun x => match x with | .IndexingGetter => some () | _ => none

def BindgenAttrs.indexing_setter (a : BindgenAttrs) : Option Unit :=
  a.attrs.findSome? fun x => match x with | .IndexingSetter => some () | _ => none

def BindgenAttrs.indexing_deleter (a : BindgenAttrs) : Option Unit :=
  a.attrs.findSome? fun x => match x with | .IndexingDeleter => some () | _ => none

def BindgenAttrs.structural (a : BindgenAttrs) : Option Unit :=
  a.attrs.findSome? fun x => match x with | .Structural => some () | _ => none

def BindgenAttrs.final_ (a : BindgenAttrs) : Option Unit :=
  a.attrs.findSome? fun x => match x with | .Final => some () | _ => none

def BindgenAttrs.readonly (a : BindgenAttrs) : Option Unit :=
  a.attrs.findSome? fun x => match x with | .Readonly => some () | _ => none

def BindgenAttrs.js_name (a : BindgenAttrs) : Option String :=
  a.attrs.findSome? fun x => match x with | .JsName s => some s | _ => none

def BindgenAttrs.js_class (a : BindgenAttrs) : Option String :=
  a.attrs.findSome? fun x => match x with | .JsClass s => some s | _ => none

def BindgenAttrs.is_type_of (a : BindgenAttrs) : Option String :=
  a.attrs.findSome? fun x => match x with | .IsTypeOf e => some e | _ => none

def BindgenAttrs.variadic (a : BindgenAttrs) : Option Unit :=
  a.attrs.findSome? fun x => match x with | .Variadic => some () | _ => none

def BindgenAttrs.typescript_custom_section (a : BindgenAttrs) : Option Unit :=
  a.attrs.findSome? fun x => match x with | .TypescriptCustomSection => some () | _ => none

def BindgenAttrs.start (a : BindgenAttrs) : Option Unit :=
  a.attrs.findSome? fun x => match x with | .Start => some () | _ => none

def BindgenAttrs.skip (a : BindgenAttrs) : Option Unit :=
  a.attrs.findSome? fun x => match x with | .Skip => some () | _ => none

/-! ## The backend AST (`backend::ast`), as far as these two files build it -/

inductive MethodSelf where
  | ByValue
  | RefMutable
  | RefShared

inductive OperationKind where
  | Regular
  | Getter (i : Option String)
  | Setter (i : Option String)
  | IndexingGetter
  | IndexingSetter
  | IndexingDeleter

inductive MethodKind where
  | Constructor
  | Operation (is_static : Bool) (kind : OperationKind)

/-- `ast::Function` (rust_attrs / rust_vis passthrough and the name span are
dropped; they never feed back into the collector's logic). -/
structure Function where
  name : String
  arguments : List SynType
  ret : Option SynType
  renamed_via_js_name : Bool

inductive ImportModule where
  | Named (name : String)
  | RawNamed (name : String)
  | Inline (idx : Nat)
  | None

inductive ImportFunctionKind where
  | Normal
  | Method (cls : String) (ty : SynType) (kind : MethodKind)

/-- `ast::ImportFunction` (`catch` is spelled `catch_` because `catch` is a
Lean keyword). -/
structure ImportFunction where
  function : Function
  kind : ImportFunctionKind
  js_ret : Option SynType
  catch_ : Bool
  variadic : Bool
  structural : Bool
  rust_name : String
  shim : String
  doc_comment : Option String

structure ImportType where
  instanceof_shim : String
  is_type_of : Option String
  rust_name : String
  js_name : String
  extends_ : List SynPath
  vendor_prefixes : List String

structure ImportStatic where
  ty : SynType
  rust_name : String
  js_name : String
  shim : String

/-- `ast::ImportKind` (`Type` is spelled `Type'` because `Type` is a Lean
keyword). -/
inductive ImportKind where
  | Function (f : ImportFunction)
  | Type' (t : ImportType)
  | Static (s : ImportStatic)

structure Import where
  module : ImportModule
  js_namespace : Option String
  kind : ImportKind

structure Variant where
  name : String
  value : Nat

structure Enum where
  name : String
  variants : List Variant
  hole : Nat

/-- The `ast::Program` accumulator, restricted to the sequences the embedded
code paths push into (exports and structs are built by code paths none of
the claims touch). -/
structure Program where
  imports : List Import
  enums : List Enum
  typescript_custom_sections : List String
  inline_js : List String

/-! ## syn-side declaration models -/

inductive FnArg where
  | captured (ty : SynType)
  | selfValue
  | selfRef (mutable : Bool)
  | otherArg

structure FnDecl where
  inputs : List FnArg
  output : Option SynType
  variadic : Bool
  generics_params : Nat

structure ForeignItemFn where
  ident : String
  decl : FnDecl

structure ForeignItemType where
  ident : String

structure ForeignItemStatic where
  ident : String
  mutability : Bool
  ty : SynType

/-- A foreign item together with the `BindgenAttrs` that
`BindgenAttrs::find` extracts from its own attribute list. -/
inductive ForeignItem where
  | Fn (f : ForeignItemFn) (opts : BindgenAttrs)
  | Type' (t : ForeignItemType) (opts : BindgenAttrs)
  | Static (s : ForeignItemStatic) (opts : BindgenAttrs)

structure ItemForeignMod where
  abi_name : Option String
  items : List ForeignItem

inductive DiscrExpr where
  | intLit (n : Nat)
  | otherExpr

structure EnumVariantSyn where
  ident : String
  fields_unit : Bool
  discriminant : Option DiscrExpr

structure ItemEnum where
  vis_public : Bool
  ident : String
  variants : List EnumVariantSyn

/-- `backend::util::ShortHash` lives outside the two embedded source files.
Modelled from the spec: a deterministic, content-addressed short hash over
the data each shim-name format feeds it; kept as uninterpreted functions.
`fnHash` hashes `(ns, rust ident, module)`, `typeHash` hashes the rust
ident, `staticHash` hashes `(js_name, module, rust ident)`. -/
structure ShortHashFns where
  fnHash : (Nat × String) × String × ImportModule → String
  typeHash : String → String
  staticHash : String × ImportModule × String → String

/-! ## Collector helpers (`parser.rs` free functions) -/

/-- `assert_not_variadic`: always fails if the attrs contain `variadic`. -/
def assert_not_variadic (attrs : BindgenAttrs) : Except String Unit :=
  if (attrs.variadic).isSome then
    .error "the `variadic` attribute can only be applied to imported (`extern`) functions"
  else .ok ()

/-- `extract_path_ident`: if the path is a single ident, return it. -/
def extract_path_ident (path : SynPath) : Except String String :=
  if path.leading_colon then .error "global paths are not supported yet"
  else match path.segments with
    | [seg] =>
      match seg.arguments with
      | .nonePA => .ok seg.ident
      | _ => .error "paths with type parameters are not supported yet"
    | _ => .error "multi-segment paths are not supported yet"

/-- `extract_first_ty_param`: get the first type parameter of a generic
type (the last path segment's angle-bracketed arguments), unwrapping the
unit tuple to `none`; errors on incorrect input. -/
def extract_first_ty_param : Option SynType → Except String (Option SynType)
  | Option.none => .ok none
  | some t =>
    match t with
    | .typePath false path =>
      match (path.segments).getLast? with
      | Option.none => .error "must have at least one segment"
      | some seg =>
        match seg.arguments with
        | .angleBracketed args =>
          match args.head? with
          | Option.none => .error "must have at least one generic parameter"
          | some (.typeArg ty) =>
            match ty with
            | .tuple [] => .ok none
            | _ => .ok (some ty)
          | some _ => .error "must be a type parameter"
        | _ => .error "must be Result<...>"
    | _ => .error "must be Result<...>"

/-- `assert_no_lifetimes`: the visitor reports every lifetime in the
signature; modelled as a single diagnostic when any type of the declaration
contains one. -/
def assert_no_lifetimes (decl : FnDecl) : Except String Unit :=
  let anyLt := (decl.inputs.any fun a => match a with
      | .captured ty => ty.hasLifetime
      | _ => false)
    || (match decl.output with
      | some ty => ty.hasLifetime
      | Option.none => false)
  if anyLt then
    .error "it is currently not sound to use lifetimes in function signatures"
  else .ok ()

/-- The `replace_self` closure of `function_from_decl`: a bare single-segment
`Self` path becomes the impl's self type ident; anything else is unchanged. -/
def replaceSelf (self_ty : Option String) (t : SynType) : SynType :=
  match self_ty with
  | Option.none => t
  | some i =>
    match t with
    | .typePath false (.mk lc [seg]) =>
      if seg.ident = "Self" then .typePath false (.mk false [.mk i .nonePA])
      else .typePath false (.mk lc [seg])
    | other => other

/-- The `inputs.into_iter().filter_map(..)` loop of `function_from_decl`:
captured arguments are kept (with `Self` replaced), a by-value `self` is
always recorded, a by-reference `self` is recorded only when `allow_self`;
the `assert!`/`panic!` arms are errors. -/
def collectFnArgs (self_ty : Option String) (allow_self : Bool) :
    List FnArg → Option MethodSelf → Except String (List SynType × Option MethodSelf)
  | [], ms => .ok ([], ms)
  | .captured ty :: rest, ms => do
    let (args, ms') ← collectFnArgs self_ty allow_self rest ms
    .ok (replaceSelf self_ty ty :: args, ms')
  | .selfValue :: rest, ms =>
    if ms.isSome then .error "assertion failed: method_self.is_none()"
    else collectFnArgs self_ty allow_self rest (some .ByValue)
  | .selfRef m :: rest, ms =>
    if allow_self then
      if ms.isSome then .error "assertion failed: method_self.is_none()"
      else collectFnArgs self_ty allow_self rest
        (some (if m then .RefMutable else .RefShared))
    else .error "panic: arguments cannot be `self` or ignored"
  | .otherArg :: _, _ => .error "panic: arguments cannot be `self` or ignored"

/-- `function_from_decl`: construct an `ast::Function` (and the self kind if
appropriate) from a syn function declaration. -/
def function_from_decl (decl_name : String) (opts : BindgenAttrs) (decl : FnDecl)
    (allow_self : Bool) (self_ty : Option String) :
    Except String (Function × Option MethodSelf) := do
  if decl.variadic then
    throw "can't #[wasm_bindgen] variadic functions"
  else if decl.generics_params > 0 then
    throw "can't #[wasm_bindgen] functions with lifetime or type parameters"
  else do
  let _ ← assert_no_lifetimes decl
  let (arguments, method_self) ← collectFnArgs self_ty allow_self decl.inputs none
  let ret := decl.output.map (replaceSelf self_ty)
  let (name, renamed) :=
    match opts.js_name with
    | some js_name => (js_name, true)
    | Option.none => (decl_name, false)
  .ok ({ name, arguments, ret, renamed_via_js_name := renamed }, method_self)

/-- `operation_kind`: the last of `getter`/`setter`/`indexing_getter`/
`indexing_setter`/`indexing_deleter` in this fixed write-over order wins. -/
def operation_kind (opts : BindgenAttrs) : OperationKind :=
  let k := OperationKind.Regular
  let k := match opts.getter with
    | some g => OperationKind.Getter g
    | Option.none => k
  let k := match opts.setter with
    | some s => OperationKind.Setter s
    | Option.none => k
  let k := if (opts.indexing_getter).isSome then OperationKind.IndexingGetter else k
  let k := if (opts.indexing_setter).isSome then OperationKind.IndexingSetter else k
  let k := if (opts.indexing_deleter).isSome then OperationKind.IndexingDeleter else k
  k

/-! ## Enum lowering (`ItemEnum::macro_parse`) -/

/-- The per-variant body of the `variants.iter().enumerate().map(..)` loop:
unit fields only, all-or-none discriminants, an explicit value must be an
integer literal representable as `u32`, an implicit value is the positional
index truncated by the `i as u32` cast (modelled as `% 2^32`). -/
def enumVariantValue (has_discriminant : Bool) (i : Nat) (v : EnumVariantSyn) :
    Except String Variant :=
  if ¬ v.fields_unit then
    .error "only C-Style enums allowed with #[wasm_bindgen]"
  else if v.discriminant.isSome ≠ has_discriminant then
    .error "must either annotate discriminant of all variants or none"
  else
    match v.discriminant with
    | some (.intLit n) =>
      if n > 4294967295 then
        .error "enums with #[wasm_bindgen] can only support numbers that can be represented as u32"
      else .ok { name := v.ident, value := n }
    | Option.none => .ok { name := v.ident, value := i % 4294967296 }
    | some .otherExpr =>
      .error "enums with #[wasm_bidngen] may only have number literal values"

/-- The hole computation of `ItemEnum::macro_parse` on the *sorted* value
list: `values.windows(2)` yields the adjacent pairs in order, the
`filter_map(..).next()` takes the first pair `(a, b)` with `a + 1 != b` and
returns `a + 1`, and `unwrap_or(*values.last().unwrap() + 1)` covers the
no-gap case — which is exactly this first-gap recursion.  The values are
`u32`, so each `+ 1` is u32 addition, modelled as `% 2^32`: when the scan
reaches `u32::MAX + 1` the hole wraps to 0 (release semantics; a build with
debug overflow checks panics at exactly those inputs instead). -/
def codeHole : List Nat → Nat
  | [] => 0
  | [a] => (a + 1) % 4294967296
  | a :: b :: rest =>
    if (a + 1) % 4294967296 ≠ b then (a + 1) % 4294967296 else codeHole (b :: rest)

/-- `ItemEnum::macro_parse`: validate the enum, compute variant values, sort
them, compute the hole, and `assert!(hole != value)` for every value before
pushing the enum onto the program. -/
def ItemEnum.macro_parse (e : ItemEnum) (program : Program) : Except String Program :=
  if ¬ e.vis_public then
    .error "only public enums are allowed with #[wasm_bindgen]"
  else
    match e.variants with
    | [] => .error "cannot export empty enums to JS"
    | v0 :: _ => do
      let has_discriminant := v0.discriminant.isSome
      let variants ← mapMExcept (fun iv =>
        enumVariantValue has_discriminant iv.1 iv.2) e.variants.enum
      let values := variants.map Variant.value
      let values := List.insertionSort (· ≤ ·) values
      let hole := codeHole values
      if values.all fun v => hole ≠ v then
        .ok { program with enums := program.enums ++ [{ name := e.ident, variants, hole }] }
      else .error "assertion failed: hole != value"

/-! ## Foreign item conversion (`ForeignItemFn/Type/Static::convert`) -/

/-- The import-kind determination chain of `ForeignItemFn::convert`:
`method` → method on the first argument's referenced path type,
`static_method_of = T` → static method of `T`, `constructor` → constructor
returning the (already `catch`-unwrapped) return type, else `Normal`. -/
def importFnKind (opts : BindgenAttrs) (wasm : Function) (js_ret : Option SynType)
    (op_kind : OperationKind) : Except String ImportFunctionKind :=
  if (opts.method).isSome then
    match wasm.arguments.head? with
    | Option.none => .error "imported methods must have at least one argument"
    | some argTy =>
      match argTy with
      | .reference _ false elem =>
        match elem with
        | .typePath false path => do
          let class_ident ← extract_path_ident path
          let class_name := match opts.js_class with
            | some p => p
            | Option.none => class_ident
          .ok (.Method class_name elem (.Operation false op_kind))
        | _ => .error "first argument of method must be a path"
      | _ => .error "first argument of method must be a shared reference"
  else
    match opts.static_method_of with
    | some cls =>
      let class_name := match opts.js_class with
        | some p => p
        | Option.none => cls
      .ok (.Method class_name (ident_ty cls) (.Operation true op_kind))
    | Option.none =>
      if (opts.constructor).isSome then
        match js_ret with
        | some class_ty =>
          match class_ty with
          | .typePath false path => do
            let class_ident ← extract_path_ident path
            let class_name := match opts.js_class with
              | some p => p
              | Option.none => class_ident
            .ok (.Method class_name class_ty .Constructor)
          | _ => .error "return value of constructor must be a bare path"
        | Option.none => .error "constructor returns must be bare types"
      else .ok .Normal

/-- `ForeignItemFn::convert`: lower a foreign function into an
`ImportKind::Function`. -/
def ForeignItemFn.convert (f : ForeignItemFn) (opts : BindgenAttrs)
    (module : ImportModule) (hashes : ShortHashFns) : Except String ImportKind := do
  let (wasm, _) ← function_from_decl f.ident opts f.decl false none
  let catchFlag := (opts.catch_).isSome
  let variadicFlag := (opts.variadic).isSome
  let js_ret ← if catchFlag then extract_first_ty_param wasm.ret else pure wasm.ret
  let op_kind := operation_kind opts
  let kind ← importFnKind opts wasm js_ret op_kind
  let ns : Nat × String := match kind with
    | .Normal => (0, "n")
    | .Method cls _ _ => (1, cls)
  let shim := "__wbg_" ++ String.mk (wasm.name.data.filter Char.isAlphanum)
      ++ "_" ++ hashes.fnHash (ns, f.ident, module)
  if (opts.final_).isSome && (opts.structural).isSome then
    .error "cannot specify both `structural` and `final`"
  else
    .ok (ImportKind.Function {
      function := wasm
      kind
      js_ret
      catch_ := catchFlag
      variadic := variadicFlag
      structural := (opts.structural).isSome || (opts.final_).isNone
      rust_name := f.ident
      shim
      doc_comment := none })

/-- `ForeignItemType::convert`: lower a foreign type, collecting every
`extends` and `vendor_prefix` attribute. -/
def ForeignItemType.convert (t : ForeignItemType) (attrs : BindgenAttrs)
    (hashes : ShortHashFns) : Except String ImportKind := do
  let _ ← assert_not_variadic attrs
  let js_name := match attrs.js_name with
    | some s => s
    | Option.none => t.ident
  let shim := "__wbg_instanceof_" ++ t.ident ++ "_" ++ hashes.typeHash t.ident
  let ext := attrs.attrs.filterMap fun a => match a with
    | .Extends p => some p
    | _ => none
  let vps := attrs.attrs.filterMap fun a => match a with
    | .VendorPrefix i => some i
    | _ => none
  .ok (.Type' { instanceof_shim := shim, is_type_of := attrs.is_type_of,
                rust_name := t.ident, js_name, extends_ := ext, vendor_prefixes := vps })

/-- `ForeignItemStatic::convert`: mutable statics are rejected. -/
def ForeignItemStatic.convert (s : ForeignItemStatic) (opts : BindgenAttrs)
    (module : ImportModule) (hashes : ShortHashFns) : Except String ImportKind :=
  if s.mutability then .error "cannot import mutable globals yet"
  else do
    let _ ← assert_not_variadic opts
    let js_name := match opts.js_name with
      | some p => p
      | Option.none => s.ident
    let shim := "__wbg_static_accessor_" ++ s.ident ++ "_"
        ++ hashes.staticHash (js_name, module, s.ident)
    .ok (.Static { ty := s.ty, rust_name := s.ident, js_name, shim })

/-- `ForeignItem::macro_parse`: convert one foreign item and push the
resulting import (with the block's module and the item's `js_namespace`)
onto the program. -/
def ForeignItem.macro_parse (item : ForeignItem) (program : Program)
    (module : ImportModule) (hashes : ShortHashFns) : Except String Program := do
  let (ns, kind) ← match item with
    | .Fn f opts => do
      let k ← f.convert opts module hashes
      pure (opts.js_namespace, k)
    | .Type' t opts => do
      let k ← t.convert opts hashes
      pure (opts.js_namespace, k)
    | .Static s opts => do
      let k ← s.convert opts module hashes
      pure (opts.js_namespace, k)
  .ok { program with imports := program.imports ++ [{ module, js_namespace := ns, kind }] }

/-! ## Foreign block lowering (`ItemForeignMod::macro_parse`) -/

/-- The module determination of `ItemForeignMod::macro_parse`, together with
the conflicting-attribute diagnostics it pushes: `module` wins and is
checked against `inline_js` and `raw_module`; otherwise `raw_module` wins
and is checked against `inline_js`; otherwise `inline_js` appends its code
to the program's pool and is referenced by index. -/
def foreignModModule (opts : BindgenAttrs) (program : Program) :
    List String × ImportModule × Program :=
  match opts.module with
  | some name =>
    let errs := (if (opts.inline_js).isSome
        then ["cannot specify both `module` and `inline_js`"] else [])
      ++ (if (opts.raw_module).isSome
        then ["cannot specify both `module` and `raw_module`"] else [])
    (errs, .Named name, program)
  | Option.none =>
    match opts.raw_module with
    | some name =>
      let errs := if (opts.inline_js).isSome
        then ["cannot specify both `raw_module` and `inline_js`"] else []
      (errs, .RawNamed name, program)
    | Option.none =>
      match opts.inline_js with
      | some js =>
        ([], .Inline program.inline_js.length,
         { program with inline_js := program.inline_js ++ [js] })
      | Option.none => ([], .None, program)

/-- `ItemForeignMod::macro_parse`: check the ABI, determine the module
(pushing conflict diagnostics), process every item (collecting per-item
errors), and report the accumulated diagnostics via `Diagnostic::from_vec`.
The error type is the list of accumulated diagnostic messages. -/
def ItemForeignMod.macro_parse (fm : ItemForeignMod) (program : Program)
    (opts : BindgenAttrs) (hashes : ShortHashFns) : Except (List String) Program :=
  let abiErrs : List String := match fm.abi_name with
    | some l => if l = "C" then [] else ["only foreign mods with the `C` ABI are allowed"]
    | Option.none => []
  let (modErrs, module, program) := foreignModModule opts program
  let (itemErrs, program) := fm.items.foldl
    (fun acc item =>
      match item.macro_parse acc.2 module hashes with
      | .ok p' => (acc.1, p')
      | .error e => (acc.1 ++ [e], acc.2))
    (([] : List String), program)
  let errors := abiErrs ++ modErrs ++ itemErrs
  if errors.isEmpty then .ok program else .error errors

/-! ## The JS shim builder (`cli-support/src/js/binding.rs`) -/

/-- `walrus::ValType`: the native VM value types. -/
inductive ValType where
  | i32
  | i64
  | f32
  | f64
  | v128
  | anyref
  deriving DecidableEq

structure TypescriptArg where
  ty : String
  name : String
  optional : Bool

/-- The helper struct used in incoming/outgoing to generate JS
(`finally` is spelled `finally_`: `finally` is a Lean keyword). -/
structure JsBuilder where
  typescript : List TypescriptArg
  prelude : String
  finally_ : String
  tmp : Nat
  args : List String

def JsBuilder.new (args : List String) : JsBuilder :=
  { typescript := [], prelude := "", finally_ := "", tmp := 0, args }

/-- The parts of the parent `Context` that `binding.rs` reads or writes: the
`config.debug` flag, the set of helpers exposed on demand (`expose_*`
registers the helper with the surrounding module; modelled as a name list),
and the linked module's type table restricted to what is read —
`module.types.get(ty).params().len()`. -/
structure Context where
  debug : Bool
  exposed : List String
  module_types_params : Nat → Nat

def Context.expose_handle_error (cx : Context) : Context :=
  { cx with exposed := cx.exposed ++ ["handleError"] }

def Context.expose_log_error (cx : Context) : Context :=
  { cx with exposed := cx.exposed ++ ["logError"] }

def Context.expose_int32_memory (cx : Context) : Context :=
  { cx with exposed := cx.exposed ++ ["getInt32Memory"] }

def Context.expose_f32_memory (cx : Context) : Context :=
  { cx with exposed := cx.exposed ++ ["getFloat32Memory"] }

def Context.expose_f64_memory (cx : Context) : Context :=
  { cx with exposed := cx.exposed ++ ["getFloat64Memory"] }

/-- The webidl-bindings `Binding` consumed by the builder, over an abstract
incoming/outgoing instruction type `Instr`.  `wasm_ty` is the index of the
function type in the module's type table. -/
structure Binding (Instr : Type) where
  wasm_ty : Nat
  incoming : List Instr
  outgoing : List Instr
  return_via_outptr : Option (List ValType)

/-- `ast::WebidlFunction`, restricted to what the builder reads, over an
abstract WebIDL type `WTy`. -/
structure WebidlFunction (WTy : Type) where
  params : List WTy
  result : Option WTy

/-- The `Builder` accumulators (`finally`/`catch` spelled with a trailing
underscore: Lean keywords).  The parent `cx` is passed separately to the
operations that read it. -/
structure Builder where
  args_prelude : String
  finally_ : String
  ret_finally : String
  function_args : List String
  invoc_args : List String
  ret_prelude : String
  ret_js : String
  ts_args : List TypescriptArg
  ts_ret : Option TypescriptArg
  constructor : Option String
  method : Option Bool
  catch_ : Bool

def Builder.new : Builder :=
  { args_prelude := "", finally_ := "", ret_finally := "", function_args := []
    invoc_args := [], ret_prelude := "", ret_js := "", ts_args := [], ts_ret := none
    constructor := none, method := none, catch_ := false }

def Builder.methodSet (b : Builder) (consumed : Bool) : Builder :=
  { b with method := some consumed }

def Builder.constructorSet (b : Builder) (cls : String) : Builder :=
  { b with constructor := some cls }

/-- `Builder::catch`: exposes `handleError` on the context when enabled. -/
def Builder.catchSet (b : Builder) (cx : Context) (c : Bool) : Builder × Context :=
  ({ b with catch_ := c }, if c then cx.expose_handle_error else cx)

/-- `Builder::finalize`: assemble the full shim body.  The two `assert!`s on
the return shape are modelled by `none` (they are panics in the source). -/
def Builder.finalize (b : Builder) (cx : Context) (invoc : String) : Option String :=
  let js := "(" ++ String.intercalate ", " b.function_args ++ ") \x7b\n"
  let js := if b.args_prelude.length > 0 then js ++ rsTrim b.args_prelude ++ "\n" else js
  let call := (if b.ts_ret.isSome then "const ret = " else "") ++ invoc ++ ";\n"
  let call := if b.ret_prelude.length > 0 then call ++ rsTrim b.ret_prelude ++ "\n" else call
  let finish := fun (call : String) =>
    let call := if b.catch_ then
      "try \x7b\n" ++ call ++ "\x7d catch (e) \x7b\n handleError(e)\n\x7d\n" else call
    let call := if cx.debug then
      "try \x7b\n" ++ call ++ "\x7d catch (e) \x7b\n logError(e)\n\x7d\n" else call
    let f := rsTrim b.finally_
    let call := if f.length ≠ 0 then
      "try \x7b\n" ++ call ++ "\x7d finally \x7b\n" ++ f ++ "\n\x7d\n" else call
    js ++ call ++ "\x7d"
  if b.ret_js.length > 0 then
    if b.ts_ret.isSome then
      if b.ret_finally.length = 0 then
        some (finish (call ++ "return " ++ b.ret_js ++ ";\n"))
      else none
    else none
  else
    some (finish (if b.ret_finally.length > 0 then call ++ rsTrim b.ret_finally ++ "\n" else call))

/-- The `for arg in self.ts_args.iter().rev()` loop of
`typescript_signature`, rendering in reverse order with the mutable
`omittable` flag. -/
def tsLoop : Bool → List TypescriptArg → List String
  | _, [] => []
  | omittable, arg :: rest =>
    if arg.optional then
      (if omittable then s!"{arg.name}?: {arg.ty}" else s!"{arg.name}: {arg.ty} | undefined")
        :: tsLoop omittable rest
    else s!"{arg.name}: {arg.ty}" :: tsLoop false rest

/-- `Builder::typescript_signature`: the argument list plus the return type
(omitted for constructors). -/
def Builder.typescript_signature (b : Builder) : String :=
  let ts_args := tsLoop true b.ts_args.reverse
  let ts_args := ts_args.reverse
  let ts := "(" ++ String.intercalate ", " ts_args ++ ")"
  if b.constructor.isNone then
    ts ++ ": " ++ (match b.ts_ret with
      | some ty => ty.ty ++ (if ty.optional then " | undefined" else "")
      | Option.none => "void")
  else ts

/-- `Builder::js_doc_comments`: one `@param` line per argument and a
`@returns` when a return type exists. -/
def Builder.js_doc_comments (b : Builder) : String :=
  (String.join (b.ts_args.map fun a =>
    if a.optional then s!"@param \x7b{a.ty} | undefined\x7d {a.name}\n"
    else s!"@param \x7b{a.ty}\x7d {a.name}\n"))
  ++ (match b.ts_ret with
    | some ts => s!"@returns \x7b{ts.ty}\x7d"
    | Option.none => "")

/-! ## `Builder::process`

The `Incoming`/`Outgoing` instruction evaluators and the `invoke` callback
are external collaborators (outside the two embedded files); `process` takes
them as function parameters.  An incoming-evaluator step maps one
instruction to the JS expressions pushed into `invoc_args`, mutating the
`JsBuilder` and the `Context`; an outgoing-evaluator step maps one
instruction to a single JS expression.  `invoke` receives the context, the
current `args_prelude` (a `&mut` in the source, so it returns the new
prelude) and the invocation arguments, and yields the invocation
expression. -/

section Process

variable {Instr WTy : Type}

/-- One `Incoming::process` step. -/
abbrev IncomingEval (Instr WTy : Type) :=
  List WTy → Instr → JsBuilder → Context → Except String (List String × JsBuilder × Context)

/-- One `Outgoing::process` step. -/
abbrev OutgoingEval (Instr : Type) :=
  Instr → JsBuilder → Context → Except String (String × JsBuilder × Context)

/-- The `invoke` callback of `process`. -/
abbrev InvokeFn := Context → String → List String → Except String (Context × String × String)

/-- The `for argument in binding.incoming.iter()` loop: run the incoming
evaluator over every instruction, concatenating the produced argument
expressions. -/
def runIncoming (step : Instr → JsBuilder → Context → Except String (List String × JsBuilder × Context)) :
    List Instr → JsBuilder → Context → Except String (List String × JsBuilder × Context)
  | [], js, cx => .ok ([], js, cx)
  | instr :: rest, js, cx =>
    match step instr js cx with
    | .error e => .error e
    | .ok (as1, js, cx) =>
      match runIncoming step rest js cx with
      | .error e => .error e
      | .ok (as2, js, cx) => .ok (as1 ++ as2, js, cx)

/-- The `for argument in binding.outgoing.iter().skip(skip)` loop: run the
outgoing evaluator over every instruction, one expression each. -/
def runOutgoing (step : OutgoingEval Instr) :
    List Instr → JsBuilder → Context → Except String (List String × JsBuilder × Context)
  | [], js, cx => .ok ([], js, cx)
  | instr :: rest, js, cx =>
    match step instr js cx with
    | .error e => .error e
    | .ok (a, js, cx) =>
      match runOutgoing step rest js cx with
      | .error e => .error e
      | .ok (as2, js, cx) => .ok (a :: as2, js, cx)

/-- The synthetic leading argument names of incoming-args mode: `retptr`
when returning via out-pointer, then the this-pointer of a method
(`ptr` when consuming self, `this.ptr` when borrowing). -/
def Builder.synthArgNames (b : Builder) (binding : Binding Instr) : List String :=
  (if (binding.return_via_outptr).isSome then ["retptr"] else [])
    ++ (match b.method with
      | some true => ["ptr"]
      | some false => ["this.ptr"]
      | Option.none => [])

/-- The prelude pushed for those synthetic arguments, in the same order. -/
def Builder.synthPrelude (b : Builder) (binding : Binding Instr) : String :=
  (if (binding.return_via_outptr).isSome then "const retptr = 8;\n" else "")
    ++ (match b.method with
      | some true => "const ptr = this.ptr;\nthis.ptr = 0;\n"
      | some false => ""
      | Option.none => "")

/-- Generate `arg0 .. argN-1` (or take the caller-supplied names; indexing
past the end of the supplied list is a Rust panic). -/
def genNames (n : Nat) (explicit_arg_names : Option (List String)) :
    Except String (List String) :=
  match explicit_arg_names with
  | some list =>
    mapMExcept (fun i =>
      match list.get? i with
      | some s => .ok s
      | Option.none => .error "panic: index out of bounds") (List.range n)
  | Option.none => .ok ((List.range n).map fun i => s!"arg{i}")

/-- Lines 192–201: save the argument-phase `JsBuilder` results on the
builder, then trim the leading typescript descriptors that correspond to
synthetic parameters (`while ts_args.len() > function_args.len() remove(0)`
= drop the length difference from the front). -/
def Builder.mergeArgs (b : Builder) (js : JsBuilder) : Builder :=
  let b := { b with
    args_prelude := b.args_prelude ++ js.prelude
    finally_ := b.finally_ ++ js.finally_
    ts_args := b.ts_args ++ js.typescript }
  { b with ts_args := b.ts_args.drop (b.ts_args.length - b.function_args.length) }

/-- Lines 116–201 of `process`: names, synthetic parameters, and running
the argument instruction stream of the current mode. -/
def Builder.processArgs (b : Builder) (cx : Context)
    (inc : IncomingEval Instr WTy) (out : OutgoingEval Instr)
    (binding : Binding Instr) (webidl : WebidlFunction WTy) (incoming_args : Bool)
    (explicit_arg_names : Option (List String)) : Except String (Builder × Context) :=
  if incoming_args then
    let synth := b.synthArgNames binding
    match genNames (webidl.params.length - synth.length) explicit_arg_names with
    | .error e => .error e
    | .ok rest =>
      let b1 := { b with
        args_prelude := b.args_prelude ++ b.synthPrelude binding
        function_args := b.function_args ++ rest }
      match runIncoming (inc webidl.params) binding.incoming (JsBuilder.new (synth ++ rest)) cx with
      | .error e => .error e
      | .ok (invocArgs, js, cx) =>
        let b2 := { b1 with invoc_args := b1.invoc_args ++ invocArgs }
        .ok (b2.mergeArgs js, cx)
  else
    let n := cx.module_types_params binding.wasm_ty
    let rest := (List.range n).map fun i => s!"arg{i}"
    let b1 := { b with function_args := b.function_args ++ rest }
    let skip := if (binding.return_via_outptr).isSome then 1 else 0
    match runOutgoing out (binding.outgoing.drop skip) (JsBuilder.new rest) cx with
    | .error e => .error e
    | .ok (invocArgs, js, cx) =>
      let b2 := { b1 with invoc_args := b1.invoc_args ++ invocArgs }
      .ok (b2.mergeArgs js, cx)

/-- Lines 237–269 of `process`: build the `view[retptr / size + i]`
expressions read back from the return pointer, exposing each needed memory
view once (the `exposed` HashSet) and prefixing the return prelude with the
corresponding `const memX = getXMemory();` binding.  A native type other
than i32/f32/f64 is an error. -/
def outptrLoadsGo (cx : Context) (exposed : List ValType) (loads : List String)
    (ret_prelude : String) (i : Nat) :
    List ValType → Except String (List String × String × Context)
  | [] => .ok (loads, ret_prelude, cx)
  | ty :: rest =>
    match ty with
    | .i32 =>
      let (exposed, ret_prelude, cx) :=
        if .i32 ∈ exposed then (exposed, ret_prelude, cx)
        else (ValType.i32 :: exposed, ret_prelude ++ "const memi32 = getInt32Memory();\n",
          cx.expose_int32_memory)
      let (mem, size) := ("memi32", 4)
      outptrLoadsGo cx exposed (loads ++ [s!"{mem}[retptr / {size} + {i}]"]) ret_prelude (i + 1) rest
    | .f32 =>
      let (exposed, ret_prelude, cx) :=
        if .f32 ∈ exposed then (exposed, ret_prelude, cx)
        else (ValType.f32 :: exposed, ret_prelude ++ "const memf32 = getFloat32Memory();\n",
          cx.expose_f32_memory)
      let (mem, size) := ("memf32", 4)
      outptrLoadsGo cx exposed (loads ++ [s!"{mem}[retptr / {size} + {i}]"]) ret_prelude (i + 1) rest
    | .f64 =>
      let (exposed, ret_prelude, cx) :=
        if .f64 ∈ exposed then (exposed, ret_prelude, cx)
        else (ValType.f64 :: exposed, ret_prelude ++ "const memf64 = getFloat64Memory();\n",
          cx.expose_f64_memory)
      let (mem, size) := ("memf64", 8)
      outptrLoadsGo cx exposed (loads ++ [s!"{mem}[retptr / {size} + {i}]"]) ret_prelude (i + 1) rest
    | _ => .error "invalid aggregate return type"

def outptrLoads (cx : Context) (list : List ValType) :
    Except String (List String × String × Context) :=
  outptrLoadsGo cx [] [] "" 0 list

/-- Lines 299–317 of `process`: the `view[arg0 / size + i] = reti;` stores
written into `ret_finally` in outgoing-args mode. -/
def outptrStores (cx : Context) : List ValType → Nat → Except String (String × Context)
  | [], _ => .ok ("", cx)
  | ty :: rest, i =>
    match (match ty with
      | .i32 => .ok ("getInt32Memory()", 4, cx.expose_int32_memory)
      | .f32 => .ok ("getFloat32Memory()", 4, cx.expose_f32_memory)
      | .f64 => .ok ("getFloat64Memory()", 8, cx.expose_f64_memory)
      | _ => .error "invalid aggregate return type" :
        Except String (String × Nat × Context)) with
    | .error e => .error e
    | .ok (mem, size, cx) =>
      match outptrStores cx rest (i + 1) with
      | .error e => .error e
      | .ok (restS, cx) => .ok (s!"{mem}[arg0 / {size} + {i}] = ret{i};\n" ++ restS, cx)

/-- Lines 325–327 of `process`: push the return-phase `JsBuilder`'s finally
and prelude, and take its first typescript descriptor as the return type
(`remove(0)` panics on an empty vector). -/
def Builder.finishRet (b : Builder) (cx : Context) (js : JsBuilder) :
    Except String (Builder × Context) :=
  let b := { b with
    ret_finally := b.ret_finally ++ js.finally_
    ret_prelude := b.ret_prelude ++ js.prelude }
  match js.typescript with
  | [] => .error "panic: removal index (is 0) should be < len (is 0)"
  | t :: _ => .ok ({ b with ts_ret := some t }, cx)

/-- Lines 225–327 of `process`: return-value marshalling. -/
def Builder.processRet (b : Builder) (cx : Context)
    (inc : IncomingEval Instr WTy) (out : OutgoingEval Instr)
    (binding : Binding Instr) (webidl : WebidlFunction WTy) (incoming_args : Bool) :
    Except String (Builder × Context) :=
  if incoming_args then
    let step : Except String (List String × Builder × Context) :=
      match binding.return_via_outptr with
      | some list =>
        match outptrLoads cx list with
        | .error e => .error e
        | .ok (loads, retPrelude, cx) =>
          .ok (loads, { b with ret_prelude := b.ret_prelude ++ retPrelude }, cx)
      | Option.none => .ok (["ret"], b, cx)
    match step with
    | .error e => .error e
    | .ok (ret_args, b, cx) =>
      match binding.outgoing with
      | [] => .error "panic: index out of bounds"
      | o :: _ =>
        match out o (JsBuilder.new ret_args) cx with
        | .error e => .error e
        | .ok (ret_js, js, cx) =>
          Builder.finishRet { b with ret_js := b.ret_js ++ ret_js } cx js
  else
    let results : List WTy := match webidl.result with
      | some r => [r]
      | Option.none => []
    match binding.incoming with
    | [] => .error "panic: index out of bounds"
    | i0 :: _ =>
      match inc results i0 (JsBuilder.new ["ret"]) cx with
      | .error e => .error e
      | .ok (ret_js, js, cx) =>
        match binding.return_via_outptr with
        | some list =>
          if list.length = ret_js.length then
            let decls := String.join ((ret_js.enum).map fun p => s!"const ret{p.1} = {p.2};\n")
            let b := { b with ret_finally := b.ret_finally ++ decls }
            match outptrStores cx list 0 with
            | .error e => .error e
            | .ok (stores, cx) =>
              Builder.finishRet { b with ret_finally := b.ret_finally ++ stores } cx js
          else .error "assertion failed: list.len() == ret_js.len()"
        | Option.none =>
          match ret_js with
          | [e] => Builder.finishRet { b with ret_js := b.ret_js ++ e } cx js
          | _ => .error "assertion failed: ret_js.len() == 1"

/-- The tail of both exits of `process`: run `invoke` (which may rewrite the
`&mut args_prelude`) and assemble the shim with `finalize`. -/
def Builder.processFinish (b : Builder) (cx : Context) (invoke : InvokeFn) :
    Except String (Builder × Context × String) :=
  match invoke cx b.args_prelude b.invoc_args with
  | .error e => .error e
  | .ok (cx, prelude, invocExpr) =>
    let b := { b with args_prelude := prelude }
    match b.finalize cx invocExpr with
    | some s => .ok (b, cx, s)
    | Option.none => .error "panic: assertion failed in finalize"

/-- `Builder::process`: the full pipeline — expose `logError` in debug mode,
marshal the arguments of the current mode, short-circuit when the
complementary stream is empty (asserting no out-pointer and no
constructor), otherwise assert the complementary stream has exactly one
instruction, marshal the return value, invoke and finalize. -/
def Builder.process (b : Builder) (cx : Context)
    (inc : IncomingEval Instr WTy) (out : OutgoingEval Instr)
    (binding : Binding Instr) (webidl : WebidlFunction WTy) (incoming_args : Bool)
    (explicit_arg_names : Option (List String)) (invoke : InvokeFn) :
    Except String (Builder × Context × String) :=
  let cx := if cx.debug then cx.expose_log_error else cx
  match b.processArgs cx inc out binding webidl incoming_args explicit_arg_names with
  | .error e => .error e
  | .ok (b, cx) =>
    let complementary := if incoming_args then binding.outgoing.length else binding.incoming.length
    if complementary = 0 then
      if (binding.return_via_outptr).isNone then
        if b.constructor.isNone then b.processFinish cx invoke
        else .error "assertion failed: self.constructor.is_none()"
      else .error "assertion failed: binding.return_via_outptr.is_none()"
    else if complementary = 1 then
      match b.processRet cx inc out binding webidl incoming_args with
      | .error e => .error e
      | .ok (b, cx) => b.processFinish cx invoke
    else .error "assertion failed: len() == 1"

end Process

/-! ## Specification-side definitions

These follow the spec's wording and are compared against the
source-translated definitions above. -/

/-- "The smallest non-negative integer that is not the value of any
variant" (claim C1's wording for the hole). -/
@[reducible] def isSmallestNonnegMissing (h : Nat) (vals : List Nat) : Prop :=
  h ∉ vals ∧ ∀ k < h, k ∈ vals

/-- The smallest integer strictly greater than `m` that is not in `vals`. -/
@[reducible] def isSmallestMissingAbove (m h : Nat) (vals : List Nat) : Prop :=
  m < h ∧ h ∉ vals ∧ ∀ k, m < k → k < h → k ∈ vals

/-- The operation-kind constructor, payloads ignored (used to state that
attribute order cannot change which accessor kind is chosen). -/
def OperationKind.tag : OperationKind → Nat
  | .Regular => 0
  | .Getter _ => 1
  | .Setter _ => 2
  | .IndexingGetter => 3
  | .IndexingSetter => 4
  | .IndexingDeleter => 5

/-- Rendering of one TypeScript argument, given whether every argument to
its right is optional (the spec's trailing-optional-run condition). -/
def tsSpecRender (trailingOpt : Bool) (a : TypescriptArg) : String :=
  if a.optional then
    (if trailingOpt then s!"{a.name}?: {a.ty}" else s!"{a.name}: {a.ty} | undefined")
  else s!"{a.name}: {a.ty}"

/-- The spec's description of the TypeScript argument list: an optional
argument in the maximal trailing optional run is rendered `name?: T`, an
optional argument with a non-optional argument somewhere to its right is
rendered `name: T | undefined`, a non-optional argument is `name: T`. -/
def tsArgsSpec : List TypescriptArg → List String
  | [] => []
  | a :: rest => tsSpecRender (rest.all (·.optional)) a :: tsArgsSpec rest

/-- Apply a wrapper only when a condition holds. -/
def applyIf (c : Bool) (f : String → String) (s : String) : String :=
  if c then f s else s

/-- The `try { … } catch (e) { handleError(e) }` region of the assembled
adapter body. -/
def wrapHandleError (s : String) : String :=
  "try \x7b\n" ++ s ++ "\x7d catch (e) \x7b\n handleError(e)\n\x7d\n"

/-- The `try { … } catch (e) { logError(e) }` region. -/
def wrapLogError (s : String) : String :=
  "try \x7b\n" ++ s ++ "\x7d catch (e) \x7b\n logError(e)\n\x7d\n"

/-- The `try { … } finally { f }` region. -/
def wrapFinallyBlock (f s : String) : String :=
  "try \x7b\n" ++ s ++ "\x7d finally \x7b\n" ++ f ++ "\n\x7d\n"

/-- Is a native type a legal element of an aggregate (multi-value)
return? -/
def ValType.validAggregate : ValType → Bool
  | .i32 | .f32 | .f64 => true
  | _ => false

/-- The memory-view local bound for a native type in incoming-args mode
(spec §6: the view must match the type's width). -/
def memViewName : ValType → String
  | .i32 => "memi32"
  | .f32 => "memf32"
  | .f64 => "memf64"
  | _ => ""

/-- The element width the return-pointer ABI uses: 4 for i32 and f32, 8 for
f64. -/
def memViewSize : ValType → Nat
  | .i32 => 4
  | .f32 => 4
  | .f64 => 8
  | _ => 0

/-! ## General helper lemmas -/

theorem except_bind_ok {α β : Type} {x : Except String α} {f : α → Except String β} {b : β} :
    (x >>= f) = .ok b ↔ ∃ a, x = .ok a ∧ f a = .ok b := by
  cases x with
  | error e => simp [Bind.bind, Except.bind]
  | ok a => simp [Bind.bind, Except.bind]

theorem mapMExcept_length {α β : Type} (f : α → Except String β) :
    ∀ {l : List α} {l' : List β}, mapMExcept f l = .ok l' → l'.length = l.length := by
  intro l
  induction l with
  | nil =>
    intro l' h
    rw [mapMExcept] at h
    injection h with h
    simp [← h]
  | cons a as ih =>
    intro l' h
    rw [mapMExcept] at h
    cases hfa : f a with
    | error e => rw [hfa] at h; cases h
    | ok b =>
      rw [hfa] at h
      cases hrest : mapMExcept f as with
      | error e => rw [hrest] at h; cases h
      | ok bs =>
        rw [hrest] at h
        injection h with h
        subst h
        simp [ih hrest]

theorem findSome?_isSome_iff {α β : Type} (f : α → Option β) (l : List α) :
    (l.findSome? f).isSome = true ↔ ∃ a ∈ l, (f a).isSome = true := by
  induction l with
  | nil => simp [List.findSome?]
  | cons a as ih =>
    rw [List.findSome?_cons]
    cases h : f a <;> simp [h, ih]

theorem findSome?_isSome_perm {α β : Type} (f : α → Option β) {l l' : List α}
    (h : l.Perm l') : (l.findSome? f).isSome = (l'.findSome? f).isSome := by
  rw [Bool.eq_iff_iff, findSome?_isSome_iff, findSome?_isSome_iff]
  constructor
  · rintro ⟨a, ha, hfa⟩; exact ⟨a, h.mem_iff.mp ha, hfa⟩
  · rintro ⟨a, ha, hfa⟩; exact ⟨a, h.mem_iff.mpr ha, hfa⟩

/-! ## Lemmas about `operation_kind` (claim C10) -/

theorem operation_kind_eq (opts : BindgenAttrs) :
    operation_kind opts =
      if (opts.indexing_deleter).isSome then .IndexingDeleter
      else if (opts.indexing_setter).isSome then .IndexingSetter
      else if (opts.indexing_getter).isSome then .IndexingGetter
      else match opts.setter with
        | some s => .Setter s
        | Option.none => match opts.getter with
          | some g => .Getter g
          | Option.none => .Regular := by
  unfold operation_kind
  cases hg : opts.getter <;> cases hs : opts.setter <;>
    cases hig : opts.indexing_getter <;> cases his : opts.indexing_setter <;>
    cases hid : opts.indexing_deleter <;> simp

theorem operation_kind_tag (opts : BindgenAttrs) :
    (operation_kind opts).tag =
      if (opts.indexing_deleter).isSome then 5
      else if (opts.indexing_setter).isSome then 4
      else if (opts.indexing_getter).isSome then 3
      else if (opts.setter).isSome then 2
      else if (opts.getter).isSome then 1
      else 0 := by
  rw [operation_kind_eq]
  cases hg : opts.getter <;> cases hs : opts.setter <;>
    split_ifs <;> simp_all [OperationKind.tag]

theorem getter_perm {o o' : BindgenAttrs} (h : o.attrs.Perm o'.attrs) :
    (o.getter).isSome = (o'.getter).isSome :=
  findSome?_isSome_perm _ h

theorem setter_perm {o o' : BindgenAttrs} (h : o.attrs.Perm o'.attrs) :
    (o.setter).isSome = (o'.setter).isSome :=
  findSome?_isSome_perm _ h

theorem indexing_getter_perm {o o' : BindgenAttrs} (h : o.attrs.Perm o'.attrs) :
    (o.indexing_getter).isSome = (o'.indexing_getter).isSome :=
  findSome?_isSome_perm _ h

theorem indexing_setter_perm {o o' : BindgenAttrs} (h : o.attrs.Perm o'.attrs) :
    (o.indexing_setter).isSome = (o'.indexing_setter).isSome :=
  findSome?_isSome_perm _ h

theorem indexing_deleter_perm {o o' : BindgenAttrs} (h : o.attrs.Perm o'.attrs) :
    (o.indexing_deleter).isSome = (o'.indexing_deleter).isSome :=
  findSome?_isSome_perm _ h

/-- **C10.** Several accessor attributes on one declaration produce no
conflict diagnostic (`operation_kind` is total); the chosen operation kind
follows the fixed precedence `indexing_deleter` > `indexing_setter` >
`indexing_getter` > `setter` > `getter`, and (payload aside) it is
invariant under reordering of the attribute list. -/
theorem C10_operation_kind_precedence :
    (∀ opts : BindgenAttrs,
      operation_kind opts =
        if (opts.indexing_deleter).isSome then .IndexingDeleter
        else if (opts.indexing_setter).isSome then .IndexingSetter
        else if (opts.indexing_getter).isSome then .IndexingGetter
        else match opts.setter with
          | some s => .Setter s
          | Option.none => match opts.getter with
            | some g => .Getter g
            | Option.none => .Regular)
    ∧ (∀ opts opts' : BindgenAttrs, opts.attrs.Perm opts'.attrs →
        (operation_kind opts).tag = (operation_kind opts').tag) := by
  refine ⟨operation_kind_eq, fun opts opts' hperm => ?_⟩
  rw [operation_kind_tag, operation_kind_tag, getter_perm hperm, setter_perm hperm,
    indexing_getter_perm hperm, indexing_setter_perm hperm, indexing_deleter_perm hperm]

/-! ## Lemmas about the enum hole (claims C1, C2) -/

theorem mapMExcept_forall {α β : Type} {f : α → Except String β} {P : β → Prop}
    (hf : ∀ a b, f a = .ok b → P b) :
    ∀ {l : List α} {l' : List β}, mapMExcept f l = .ok l' → ∀ b ∈ l', P b := by
  intro l
  induction l with
  | nil =>
    intro l' h
    rw [mapMExcept] at h
    injection h with h
    simp [← h]
  | cons a as ih =>
    intro l' h
    rw [mapMExcept] at h
    cases hfa : f a with
    | error e => rw [hfa] at h; cases h
    | ok b =>
      rw [hfa] at h
      cases hrest : mapMExcept f as with
      | error e => rw [hrest] at h; cases h
      | ok bs =>
        rw [hrest] at h
        injection h with h
        subst h
        intro c hc
        rcases List.mem_cons.mp hc with hcb | hcs
        · exact hcb ▸ hf a b hfa
        · exact ih hrest c hcs

theorem enumVariantValue_le {hd : Bool} {i : Nat} {v : EnumVariantSyn} {w : Variant}
    (h : enumVariantValue hd i v = .ok w) : w.value ≤ 4294967295 := by
  unfold enumVariantValue at h
  repeat' split at h
  all_goals first
    | (cases h; done)
    | (injection h with h; subst h; dsimp only; omega)

/-- Characterisation of the wrapped hole computation on a sorted list of
u32 values: either the `+ 1` wraps — the hole is 0 and every integer from
the head up to `2^32 - 1` occurs in the list — or the hole is an unwrapped
successor, strictly above the head, at most `2^32 - 1`, and every integer
strictly between the head and the hole occurs in the list. -/
theorem codeHole_wrapped : ∀ (a : Nat) (l : List Nat), List.Sorted (· ≤ ·) (a :: l) →
    (∀ v ∈ a :: l, v ≤ 4294967295) →
    (codeHole (a :: l) = 0 ∧ ∀ k, a < k → k ≤ 4294967295 → k ∈ a :: l)
    ∨ (a < codeHole (a :: l) ∧ codeHole (a :: l) ≤ 4294967295 ∧
        ∀ k, a < k → k < codeHole (a :: l) → k ∈ a :: l)
  | a, [], _, hb => by
    have ha : a ≤ 4294967295 := hb a (List.mem_cons_self a [])
    by_cases hM : a = 4294967295
    · subst hM
      left
      exact ⟨rfl, fun k hk1 hk2 => absurd hk2 (by omega)⟩
    · right
      have hhole : codeHole [a] = a + 1 := by
        show (a + 1) % 4294967296 = a + 1
        exact Nat.mod_eq_of_lt (by omega)
      rw [hhole]
      exact ⟨by omega, by omega, fun k hk1 hk2 => absurd hk2 (by omega)⟩
  | a, b :: rest, hs, hb => by
    have hab : a ≤ b := (List.sorted_cons.mp hs).1 b (List.mem_cons_self b rest)
    have hbtail : ∀ v ∈ b :: rest, v ≤ 4294967295 :=
      fun v hv => hb v (List.mem_cons_of_mem a hv)
    have hbM : b ≤ 4294967295 := hbtail b (List.mem_cons_self b rest)
    by_cases hM : a = 4294967295
    · subst hM
      have hbEq : b = 4294967295 := le_antisymm hbM hab
      subst hbEq
      have hhole : codeHole (4294967295 :: 4294967295 :: rest) = 0 := by
        rw [codeHole, if_pos (by decide)]
      rw [hhole]
      left
      exact ⟨rfl, fun k hk1 hk2 => absurd hk2 (by omega)⟩
    · have haM : a ≤ 4294967295 := hb a (List.mem_cons_self a _)
      have hmod : (a + 1) % 4294967296 = a + 1 := Nat.mod_eq_of_lt (by omega)
      by_cases hgap : a + 1 = b
      · have hhole : codeHole (a :: b :: rest) = codeHole (b :: rest) := by
          rw [codeHole, if_neg (by rw [hmod]; omega)]
        rw [hhole]
        rcases codeHole_wrapped b rest (List.sorted_cons.mp hs).2 hbtail with
          ⟨h0, hall⟩ | ⟨h1, h2, h3⟩
        · left
          refine ⟨h0, ?_⟩
          intro k hk1 hk2
          by_cases hkb : k ≤ b
          · have hkEq : k = b := by omega
            subst hkEq
            exact List.mem_cons_of_mem a (List.mem_cons_self k rest)
          · exact List.mem_cons_of_mem a (hall k (by omega) hk2)
        · right
          refine ⟨by omega, h2, ?_⟩
          intro k hk1 hk2
          by_cases hkb : k ≤ b
          · have hkEq : k = b := by omega
            subst hkEq
            exact List.mem_cons_of_mem a (List.mem_cons_self k rest)
          · exact List.mem_cons_of_mem a (h3 k (by omega) hk2)
      · have hhole : codeHole (a :: b :: rest) = a + 1 := by
          rw [codeHole, if_pos (by rw [hmod]; exact hgap), hmod]
        rw [hhole]
        right
        exact ⟨by omega, by omega, fun k hk1 hk2 => absurd hk2 (by omega)⟩

/-- **C1** (amended).  For every enum accepted by the Collector, the hole is
never a variant value, and it is the smallest integer *strictly greater than
the least variant value* that is not the value of any variant (not the
smallest non-negative integer) whenever some such integer exists at most
`2^32 - 1`; in the remaining case — every integer from the least variant
value through `2^32 - 1` is a variant value — the u32 increment wraps and
the hole is 0. -/
theorem C1_enum_hole_least_above_min (e : ItemEnum) (p p' : Program)
    (h : e.macro_parse p = .ok p') :
    ∃ en : Enum, p'.enums = p.enums ++ [en] ∧
      ∃ m, m ∈ en.variants.map Variant.value ∧
        (∀ v ∈ en.variants.map Variant.value, m ≤ v) ∧
        en.hole ∉ en.variants.map Variant.value ∧
        ((∃ k, m < k ∧ k ≤ 4294967295 ∧ k ∉ en.variants.map Variant.value) →
          isSmallestMissingAbove m en.hole (en.variants.map Variant.value) ∧
          en.hole ≤ 4294967295) ∧
        ((∀ k, m < k → k ≤ 4294967295 → k ∈ en.variants.map Variant.value) →
          en.hole = 0) := by
  unfold ItemEnum.macro_parse at h
  split at h
  · cases h
  · split at h
    · cases h
    next v0 rest' heq =>
      rw [except_bind_ok] at h
      obtain ⟨variants, hmap, h⟩ := h
      dsimp only at h
      split at h
      case isFalse => cases h
      case isTrue hall =>
        injection h with h
        subst h
        refine ⟨⟨e.ident, variants,
          codeHole (List.insertionSort (· ≤ ·) (variants.map Variant.value))⟩, by simp, ?_⟩
        -- notation for the sorted value list
        simp only
        set vals := variants.map Variant.value with hvals
        set sorted := List.insertionSort (· ≤ ·) vals with hsorted
        have hperm : sorted.Perm vals := List.perm_insertionSort _ _
        have hS : List.Sorted (· ≤ ·) sorted := List.sorted_insertionSort _ _
        have hlen : variants.length = (v0 :: rest').length := by
          have := mapMExcept_length _ hmap
          simpa [heq] using this
        have hvne : vals ≠ [] := by
          intro hnil
          have : vals.length = 0 := by simp [hnil]
          simp [hvals, hlen] at this
        have hsne : sorted ≠ [] := by
          intro hnil
          have h0 : vals.length = 0 := by
            rw [← hperm.length_eq, hnil]
            rfl
          exact hvne (List.length_eq_zero.mp h0)
        obtain ⟨a, tail, hcons⟩ := List.exists_cons_of_ne_nil hsne
        simp only [List.all_eq_true, decide_eq_true_eq] at hall
        have hnotin : ∀ v ∈ vals, codeHole sorted ≠ v := by
          intro v hv
          exact hall v (hperm.mem_iff.mpr hv)
        have hboundVar : ∀ w ∈ variants, w.value ≤ 4294967295 :=
          mapMExcept_forall (fun x w hw => enumVariantValue_le hw) hmap
        have hbound : ∀ v ∈ vals, v ≤ 4294967295 := by
          intro v hv
          rw [hvals] at hv
          obtain ⟨w, hw, hwv⟩ := List.mem_map.mp hv
          exact hwv ▸ hboundVar w hw
        have hboundS : ∀ v ∈ a :: tail, v ≤ 4294967295 := by
          intro v hv
          exact hbound v (hperm.mem_iff.mp (hcons ▸ hv))
        have hW := codeHole_wrapped a tail (hcons ▸ hS) hboundS
        refine ⟨a, ?_, ?_, ?_, ?_, ?_⟩
        · exact hperm.mem_iff.mp (hcons ▸ List.mem_cons_self a tail)
        · intro v hv
          have hvmem : v ∈ a :: tail := hcons ▸ hperm.mem_iff.mpr hv
          rcases List.mem_cons.mp hvmem with hva | hvt
          · omega
          · exact (List.sorted_cons.mp (hcons ▸ hS)).1 v hvt
        · -- hole ∉ vals
          intro hmem
          exact hnotin _ hmem rfl
        · -- some value at most 2^32 − 1 is missing above the minimum:
          -- the hole is the least one
          rintro ⟨k0, hk0a, hk0M, hk0nv⟩
          rcases hW with ⟨h0, hall2⟩ | ⟨h1, h2, h3⟩
          · exact absurd (hperm.mem_iff.mp (hcons ▸ hall2 k0 hk0a hk0M)) hk0nv
          · refine ⟨⟨?_, ?_, ?_⟩, ?_⟩
            · rw [hcons]
              exact h1
            · intro hmem
              exact hnotin _ hmem rfl
            · intro k hak hk
              rw [hcons] at hk
              exact hperm.mem_iff.mp (hcons ▸ h3 k hak hk)
            · rw [hcons]
              exact h2
        · -- every integer in (min, 2^32 − 1] is a value: the hole wrapped to 0
          intro hall2
          rcases hW with ⟨h0, _⟩ | ⟨h1, h2, _⟩
          · rw [hcons]
            exact h0
          · exfalso
            have hmemv : codeHole (a :: tail) ∈ vals := hall2 _ h1 h2
            exact hnotin _ hmemv (by rw [hcons])

/-- **C1, counterexample.**  On `enum E { A = 5 }` the code computes hole 6,
although the smallest non-negative integer that is no variant value is 0:
the claim's definition of the hole does not match the code. -/
theorem C1_counterexample_single_variant_five :
    ItemEnum.macro_parse ⟨true, "E", [⟨"A", true, some (.intLit 5)⟩]⟩ ⟨[], [], [], []⟩
      = .ok ⟨[], [⟨"E", [⟨"A", 5⟩], 6⟩], [], []⟩
    ∧ ¬ isSmallestNonnegMissing 6 [5]
    ∧ isSmallestNonnegMissing 0 [5] := by
  refine ⟨rfl, ?_, ?_⟩ <;> decide

/-- **C1, witness** for the amended statement, on `enum E { A = 1, B = 3 }`
(hole 2). -/
theorem C1_witness :
    ∃ en : Enum,
      (Program.enums ⟨[], [⟨"E", [⟨"A", 1⟩, ⟨"B", 3⟩], 2⟩], [], []⟩) = [] ++ [en] ∧
      ∃ m, m ∈ en.variants.map Variant.value ∧
        (∀ v ∈ en.variants.map Variant.value, m ≤ v) ∧
        en.hole ∉ en.variants.map Variant.value ∧
        ((∃ k, m < k ∧ k ≤ 4294967295 ∧ k ∉ en.variants.map Variant.value) →
          isSmallestMissingAbove m en.hole (en.variants.map Variant.value) ∧
          en.hole ≤ 4294967295) ∧
        ((∀ k, m < k → k ≤ 4294967295 → k ∈ en.variants.map Variant.value) →
          en.hole = 0) := by
  have h : ItemEnum.macro_parse
      ⟨true, "E", [⟨"A", true, some (.intLit 1)⟩, ⟨"B", true, some (.intLit 3)⟩]⟩
      ⟨[], [], [], []⟩
      = .ok ⟨[], [⟨"E", [⟨"A", 1⟩, ⟨"B", 3⟩], 2⟩], [], []⟩ := rfl
  simpa using C1_enum_hole_least_above_min _ _ _ h

/-- **C2.**  `enum E { A = 2, B = 2, C = 3 }` passes every per-variant
validation (C-style, all discriminants explicit, each value ≤ 2³²−1), yet
the computed hole is 3 — equal to variant `C`'s value — so the
`assert!(hole != value)` in `ItemEnum::macro_parse` fires (a panic in the
source, `.error "assertion failed: …"` in this model). -/
theorem C2_duplicate_values_break_hole_assert :
    mapMExcept (fun iv => enumVariantValue true iv.1 iv.2)
      (List.enum [⟨"A", true, some (.intLit 2)⟩, ⟨"B", true, some (.intLit 2)⟩,
        ⟨"C", true, some (.intLit 3)⟩])
      = .ok [⟨"A", 2⟩, ⟨"B", 2⟩, ⟨"C", 3⟩]
    ∧ codeHole (List.insertionSort (· ≤ ·) [2, 2, 3]) = 3
    ∧ (3 : Nat) ∈ [2, 2, 3]
    ∧ ItemEnum.macro_parse
        ⟨true, "E", [⟨"A", true, some (.intLit 2)⟩, ⟨"B", true, some (.intLit 2)⟩,
          ⟨"C", true, some (.intLit 3)⟩]⟩ ⟨[], [], [], []⟩
      = .error "assertion failed: hole != value" := by
  refine ⟨rfl, rfl, by decide, rfl⟩

/-! ## Lemmas about `ForeignItemFn::convert` (claims C4, C5) -/

/-- Inversion of a successful `ForeignItemFn::convert`: the intermediate
steps all succeeded, `structural`+`final` was not hit, and the result is the
`ImportKind::Function` record built from them. -/
theorem ForeignItemFn.convert_ok_inv {f : ForeignItemFn} {opts : BindgenAttrs}
    {module : ImportModule} {hashes : ShortHashFns} {k : ImportKind}
    (h : f.convert opts module hashes = .ok k) :
    ∃ wasm ms js_ret kind,
      function_from_decl f.ident opts f.decl false none = .ok (wasm, ms) ∧
      (if (opts.catch_).isSome then extract_first_ty_param wasm.ret
        else pure wasm.ret) = .ok js_ret ∧
      importFnKind opts wasm js_ret (operation_kind opts) = .ok kind ∧
      ((opts.final_).isSome && (opts.structural).isSome) = false ∧
      k = .Function {
        function := wasm
        kind
        js_ret
        catch_ := (opts.catch_).isSome
        variadic := (opts.variadic).isSome
        structural := (opts.structural).isSome || (opts.final_).isNone
        rust_name := f.ident
        shim := "__wbg_" ++ String.mk (wasm.name.data.filter Char.isAlphanum) ++ "_"
          ++ hashes.fnHash
            ((match kind with
              | .Normal => (0, "n")
              | .Method cls _ _ => (1, cls)), f.ident, module)
        doc_comment := none } := by
  unfold ForeignItemFn.convert at h
  rw [except_bind_ok] at h
  obtain ⟨⟨wasm, ms⟩, hfd, h⟩ := h
  dsimp only at h
  split at h <;>
  · rename_i hc
    rw [except_bind_ok] at h
    obtain ⟨js_ret, hjr, h⟩ := h
    rw [except_bind_ok] at h
    obtain ⟨kind, hk, h⟩ := h
    split at h
    · cases h
    next hconf =>
      injection h with h
      refine ⟨wasm, ms, js_ret, kind, hfd, ?_, hk, by simpa using hconf, h.symm⟩
      simp only [hc, if_true, if_false, ite_true, ite_false]
      exact hjr

/-- **C5.**  For every accepted foreign function, the import's `structural`
flag is `structural present || final absent`; in particular, with neither
attribute the import is structural. -/
theorem C5_structural_default (f : ForeignItemFn) (opts : BindgenAttrs)
    (module : ImportModule) (hashes : ShortHashFns) (k : ImportKind)
    (h : f.convert opts module hashes = .ok k) :
    ∃ impf, k = .Function impf ∧
      impf.structural = ((opts.structural).isSome || (opts.final_).isNone) ∧
      ((opts.structural).isNone → (opts.final_).isNone → impf.structural = true) := by
  obtain ⟨wasm, ms, js_ret, kind, _, _, _, _, hkEq⟩ := ForeignItemFn.convert_ok_inv h
  subst hkEq
  refine ⟨_, rfl, rfl, fun hs hf => ?_⟩
  simp [hf]

/-- **C5, witness**: a plain import with neither `structural` nor `final`
is structural. -/
theorem C5_witness :
    ∃ impf,
      ImportKind.Function
        { function := ⟨"foo", [], none, false⟩
          kind := .Normal
          js_ret := none
          catch_ := false
          variadic := false
          structural := true
          rust_name := "foo"
          shim := "__wbg_foo_h"
          doc_comment := none } = .Function impf ∧
      impf.structural = (((BindgenAttrs.mk []).structural).isSome
        || ((BindgenAttrs.mk []).final_).isNone) ∧
      (((BindgenAttrs.mk []).structural).isNone → ((BindgenAttrs.mk []).final_).isNone →
        impf.structural = true) := by
  exact C5_structural_default ⟨"foo", ⟨[], none, false, 0⟩⟩ ⟨[]⟩ (.Named "./x")
    ⟨fun _ => "h", fun _ => "h", fun _ => "h"⟩ _ rfl

/-- **C4.**  With `catch`, the host-visible return type is what
`extract_first_ty_param` yields on the declared return: the first type
parameter of the *last* segment of the return type's path, the unit tuple
unwrapped to "no return", and a declared return that is not such a generic
path is rejected; without `catch`, `js_ret` is the declared return
unchanged. -/
theorem C4_catch_js_ret :
    (∀ (f : ForeignItemFn) (opts : BindgenAttrs) (module : ImportModule)
        (hashes : ShortHashFns) (k : ImportKind),
      (opts.catch_).isSome = true →
      f.convert opts module hashes = .ok k →
      ∃ impf r, k = .Function impf ∧
        extract_first_ty_param impf.function.ret = .ok r ∧ impf.js_ret = r)
    ∧ (∀ (path : SynPath) (seg : PathSegment) (segs : List PathSegment) (τ : SynType)
          (rest : List GenericArg),
        path.segments = segs ++ [seg] →
        seg.arguments = .angleBracketed (.typeArg τ :: rest) →
        extract_first_ty_param (some (.typePath false path)) =
          .ok (match τ with | .tuple [] => none | _ => some τ))
    ∧ (∀ t : SynType, (∀ path, t ≠ .typePath false path) →
        extract_first_ty_param (some t) = .error "must be Result<...>")
    ∧ (∀ (f : ForeignItemFn) (opts : BindgenAttrs) (module : ImportModule)
        (hashes : ShortHashFns) (k : ImportKind),
      opts.catch_ = none →
      f.convert opts module hashes = .ok k →
      ∃ impf, k = .Function impf ∧ impf.js_ret = impf.function.ret) := by
  refine ⟨?_, ?_, ?_, ?_⟩
  · intro f opts module hashes k hc h
    obtain ⟨wasm, ms, js_ret, kind, hfd, hjr, hk, hnc, hkEq⟩ := ForeignItemFn.convert_ok_inv h
    subst hkEq
    rw [if_pos hc] at hjr
    exact ⟨_, js_ret, rfl, hjr, rfl⟩
  · intro path seg segs τ rest hseg hargs
    obtain ⟨lc, segsAll⟩ := path
    simp only [SynPath.segments] at hseg
    subst hseg
    obtain ⟨segIdent, segArgs⟩ := seg
    simp only [PathSegment.arguments] at hargs
    subst hargs
    simp only [extract_first_ty_param, SynPath.segments, List.getLast?_concat,
      PathSegment.arguments, List.head?]
    cases τ <;> try rfl
    next elems => cases elems <;> rfl
  · intro t hne
    cases t with
    | typePath q path =>
      cases q with
      | false => exact absurd rfl (hne path)
      | true => rfl
    | reference _ _ _ => rfl
    | tuple _ => rfl
    | otherTy => rfl
  · intro f opts module hashes k hc h
    obtain ⟨wasm, ms, js_ret, kind, hfd, hjr, hk, hnc, hkEq⟩ := ForeignItemFn.convert_ok_inv h
    subst hkEq
    rw [if_neg (by simp [hc])] at hjr
    injection hjr with hjr
    exact ⟨_, rfl, hjr.symm⟩

/-- **C4, witness**: `#[catch] fn parse(s: &str) -> Result<MyType, JsValue>`
gives `js_ret = MyType`. -/
theorem C4_witness :
    ∃ impf r,
      ImportKind.Function
        { function := ⟨"parse",
            [.reference false false (ident_ty "str")],
            some (.typePath false (.mk false [.mk "Result"
              (.angleBracketed [.typeArg (ident_ty "MyType"), .typeArg (ident_ty "JsValue")])])),
            false⟩
          kind := .Normal
          js_ret := some (ident_ty "MyType")
          catch_ := true
          variadic := false
          structural := true
          rust_name := "parse"
          shim := "__wbg_parse_h"
          doc_comment := none } = .Function impf ∧
      extract_first_ty_param impf.function.ret = .ok r ∧ impf.js_ret = r := by
  exact C4_catch_js_ret.1
    ⟨"parse", ⟨[.captured (.reference false false (ident_ty "str"))],
      some (.typePath false (.mk false [.mk "Result"
        (.angleBracketed [.typeArg (ident_ty "MyType"), .typeArg (ident_ty "JsValue")])])),
      false, 0⟩⟩
    ⟨[.Catch]⟩ (.Named "./x") ⟨fun _ => "h", fun _ => "h", fun _ => "h"⟩ _ rfl rfl

/-! ## Lemmas about foreign-module attribute conflicts (claim C6) -/

/-- Any diagnostic produced by the module determination ends up in the
error list that `ItemForeignMod::macro_parse` reports. -/
theorem ItemForeignMod.macro_parse_conflict {fm : ItemForeignMod} {p : Program}
    {opts : BindgenAttrs} {hashes : ShortHashFns} {msg : String}
    (hmem : msg ∈ (foreignModModule opts p).1) :
    ∃ errs, fm.macro_parse p opts hashes = .error errs ∧ msg ∈ errs := by
  unfold ItemForeignMod.macro_parse
  rcases hfm : foreignModModule opts p with ⟨modErrs, module, p1⟩
  rw [hfm] at hmem
  dsimp only
  rcases hfold : fm.items.foldl
    (fun acc item =>
      match item.macro_parse acc.2 module hashes with
      | .ok p' => (acc.1, p')
      | .error e => (acc.1 ++ [e], acc.2)) (([] : List String), p1) with ⟨itemErrs, p2⟩
  rw [hfold]
  dsimp only at hmem ⊢
  have hmemAll : msg ∈ (match fm.abi_name with
      | some l => if l = "C" then [] else ["only foreign mods with the `C` ABI are allowed"]
      | Option.none => []) ++ modErrs ++ itemErrs :=
    List.mem_append.mpr (Or.inl (List.mem_append.mpr (Or.inr hmem)))
  rw [if_neg]
  · exact ⟨_, rfl, hmemAll⟩
  · simp only [List.isEmpty_iff]
    intro h0
    rw [h0] at hmemAll
    cases hmemAll

theorem foreignModModule_module_inline {opts : BindgenAttrs} {p : Program}
    (hm : (opts.module).isSome = true) (hi : (opts.inline_js).isSome = true) :
    "cannot specify both `module` and `inline_js`" ∈ (foreignModModule opts p).1 := by
  obtain ⟨m, hm⟩ := Option.isSome_iff_exists.mp hm
  unfold foreignModModule
  rw [hm]
  simp [hi]

theorem foreignModModule_module_raw {opts : BindgenAttrs} {p : Program}
    (hm : (opts.module).isSome = true) (hr : (opts.raw_module).isSome = true) :
    "cannot specify both `module` and `raw_module`" ∈ (foreignModModule opts p).1 := by
  obtain ⟨m, hm⟩ := Option.isSome_iff_exists.mp hm
  unfold foreignModModule
  rw [hm]
  simp [hr]

theorem foreignModModule_raw_inline {opts : BindgenAttrs} {p : Program}
    (hr : (opts.raw_module).isSome = true) (hi : (opts.inline_js).isSome = true) :
    "cannot specify both `raw_module` and `inline_js`" ∈ (foreignModModule opts p).1 ∨
    "cannot specify both `module` and `inline_js`" ∈ (foreignModModule opts p).1 := by
  cases hm : opts.module with
  | some m =>
    right
    unfold foreignModModule
    rw [hm]
    simp [hi]
  | none =>
    left
    obtain ⟨r, hr'⟩ := Option.isSome_iff_exists.mp hr
    unfold foreignModModule
    rw [hm, hr']
    simp [hi]

/-- **C6.**  Each of the three pairings `module`+`inline_js`,
`raw_module`+`inline_js` and `module`+`raw_module` on one foreign block
makes `ItemForeignMod::macro_parse` report a conflicting-attributes
diagnostic (never a silent acceptance); when `module` is also present the
`raw_module`+`inline_js` pairing is reported through the `module` branch's
diagnostics. -/
theorem C6_foreign_module_conflicts :
    (∀ (fm : ItemForeignMod) (p : Program) (opts : BindgenAttrs) (hashes : ShortHashFns),
      (opts.module).isSome = true → (opts.inline_js).isSome = true →
      ∃ errs, fm.macro_parse p opts hashes = .error errs ∧
        "cannot specify both `module` and `inline_js`" ∈ errs)
    ∧ (∀ (fm : ItemForeignMod) (p : Program) (opts : BindgenAttrs) (hashes : ShortHashFns),
      (opts.raw_module).isSome = true → (opts.inline_js).isSome = true →
      ∃ errs, fm.macro_parse p opts hashes = .error errs ∧
        ("cannot specify both `raw_module` and `inline_js`" ∈ errs ∨
         "cannot specify both `module` and `inline_js`" ∈ errs))
    ∧ (∀ (fm : ItemForeignMod) (p : Program) (opts : BindgenAttrs) (hashes : ShortHashFns),
      (opts.module).isSome = true → (opts.raw_module).isSome = true →
      ∃ errs, fm.macro_parse p opts hashes = .error errs ∧
        "cannot specify both `module` and `raw_module`" ∈ errs) := by
  refine ⟨?_, ?_, ?_⟩
  · intro fm p opts hashes hm hi
    exact ItemForeignMod.macro_parse_conflict (foreignModModule_module_inline hm hi)
  · intro fm p opts hashes hr hi
    rcases @foreignModModule_raw_inline opts p hr hi with hmem | hmem
    · obtain ⟨errs, he, hm⟩ := @ItemForeignMod.macro_parse_conflict fm p opts hashes _ hmem
      exact ⟨errs, he, Or.inl hm⟩
    · obtain ⟨errs, he, hm⟩ := @ItemForeignMod.macro_parse_conflict fm p opts hashes _ hmem
      exact ⟨errs, he, Or.inr hm⟩
  · intro fm p opts hashes hm hr
    exact ItemForeignMod.macro_parse_conflict (foreignModModule_module_raw hm hr)

/-- **C6, witness**: a block with `module = "a"` and `inline_js = "x"` is
rejected with the conflict diagnostic. -/
theorem C6_witness :
    ∃ errs,
      ItemForeignMod.macro_parse ⟨some "C", []⟩ ⟨[], [], [], []⟩
        ⟨[.Module "a", .InlineJs "x"]⟩ ⟨fun _ => "h", fun _ => "h", fun _ => "h"⟩
        = .error errs ∧
      "cannot specify both `module` and `inline_js`" ∈ errs := by
  exact C6_foreign_module_conflicts.1 ⟨some "C", []⟩ ⟨[], [], [], []⟩
    ⟨[.Module "a", .InlineJs "x"]⟩ ⟨fun _ => "h", fun _ => "h", fun _ => "h"⟩ rfl rfl

/-! ## The TypeScript signature (claim C7) -/

theorem tsLoop_concat (a : TypescriptArg) (xs : List TypescriptArg) :
    ∀ om : Bool,
      tsLoop om (xs ++ [a]) = tsLoop om xs ++ [tsSpecRender (om && xs.all (·.optional)) a] := by
  induction xs with
  | nil =>
    intro om
    by_cases h : a.optional <;> simp [tsLoop, tsSpecRender, h]
  | cons x xs ih =>
    intro om
    by_cases h : x.optional
    · simp only [List.cons_append, tsLoop, h, if_true, List.append_eq]
      rw [ih om]
      simp [h]
    · simp only [List.cons_append, tsLoop, h, if_false, List.append_eq]
      rw [ih false]
      simp [h]

theorem tsLoop_reverse_spec (l : List TypescriptArg) :
    (tsLoop true l.reverse).reverse = tsArgsSpec l := by
  induction l with
  | nil => rfl
  | cons a l ih =>
    rw [tsArgsSpec, List.reverse_cons, tsLoop_concat, List.reverse_append]
    simp [ih, List.all_reverse]

/-- **C7.**  The TypeScript signature renders each argument of the maximal
trailing optional run as `name?: T`, every optional argument left of the
first non-optional one as `name: T | undefined`, non-optional arguments as
`name: T`; the return type is omitted for constructors, `void` when there
is no return descriptor, `T | undefined` for a present-and-optional return,
else `T`. -/
theorem C7_typescript_signature (b : Builder) :
    b.typescript_signature =
      "(" ++ String.intercalate ", " (tsArgsSpec b.ts_args) ++ ")"
        ++ (if b.constructor.isSome then ""
          else ": " ++ (match b.ts_ret with
            | some ty => ty.ty ++ (if ty.optional then " | undefined" else "")
            | Option.none => "void")) := by
  unfold Builder.typescript_signature
  dsimp only
  rw [tsLoop_reverse_spec]
  cases hc : b.constructor with
  | none =>
    simp [hc, String.append_assoc]
    rw [← String.append_assoc (")" : String) ": "]
    simp [show ((")" : String) ++ ": " = "): ") from rfl]
  | some cls => simp [hc]

/-! ## The adapter body wrapping order (claim C8) -/

theorem string_eq_empty_of_length_eq_zero {s : String} (h : s.length = 0) : s = "" :=
  String.ext (List.length_eq_zero.mp h)

/-- **C8.**  The assembled body nests its control-flow regions in a fixed
order: the `handleError` catch (present exactly when catch mode is on) is
innermost, the `logError` catch (present exactly when debug mode is on)
surrounds it, and the `finally` region (present exactly when the finally
accumulator is non-empty) wraps both.  (The hypothesis `hf` states that the
accumulator is never a non-empty all-whitespace string, which holds for
every accumulator the builder produces: `JsBuilder` appends whole trimmed
lines.) -/
theorem C8_finalize_wrapping (b : Builder) (cx : Context) (invoc out : String)
    (hf : b.finally_ = "" ∨ rsTrim b.finally_ ≠ "")
    (h : b.finalize cx invoc = some out) :
    ∃ core, out =
      "(" ++ String.intercalate ", " b.function_args ++ ") \x7b\n"
        ++ (if b.args_prelude.length > 0 then rsTrim b.args_prelude ++ "\n" else "")
        ++ applyIf (b.finally_ ≠ "") (wrapFinallyBlock (rsTrim b.finally_))
            (applyIf cx.debug wrapLogError
              (applyIf b.catch_ wrapHandleError core))
        ++ "\x7d" := by
  have htrim : ∀ c : String,
      (if (rsTrim b.finally_).length ≠ 0 then
        "try \x7b\n" ++ c ++ "\x7d finally \x7b\n" ++ rsTrim b.finally_ ++ "\n\x7d\n" else c)
      = applyIf (b.finally_ ≠ "") (wrapFinallyBlock (rsTrim b.finally_)) c := by
    intro c
    rcases hf with hf | hf
    · rw [hf]
      simp [applyIf, show rsTrim "" = "" from rfl]
    · have h1 : (rsTrim b.finally_).length ≠ 0 := by
        intro h0
        exact hf (string_eq_empty_of_length_eq_zero h0)
      have h2 : b.finally_ ≠ "" := by
        intro h0
        rw [h0] at hf
        exact hf rfl
      simp [applyIf, wrapFinallyBlock, h1, h2]
  unfold Builder.finalize at h
  dsimp only at h
  split at h
  · split at h
    · split at h
      · -- ret_js non-empty, ts_ret present, ret_finally empty: return-statement core
        injection h with h
        refine ⟨(if b.ret_prelude.length > 0 then
            "const ret = " ++ invoc ++ ";\n" ++ rsTrim b.ret_prelude ++ "\n"
          else "const ret = " ++ invoc ++ ";\n") ++ "return " ++ b.ret_js ++ ";\n", ?_⟩
        rw [← h, htrim]
        by_cases hp : b.args_prelude.length > 0 <;>
          by_cases hd : cx.debug <;> by_cases hcat : b.catch_ <;>
          simp [applyIf, wrapHandleError, wrapLogError, hp, hd, hcat, String.append_assoc]
      · cases h
    · cases h
  · -- ret_js empty: ret_finally (or nothing) core
    injection h with h
    refine ⟨(if b.ret_finally.length > 0 then
        (if b.ret_prelude.length > 0 then
          (if b.ts_ret.isSome then "const ret = " else "") ++ invoc ++ ";\n"
            ++ rsTrim b.ret_prelude ++ "\n"
        else (if b.ts_ret.isSome then "const ret = " else "") ++ invoc ++ ";\n")
          ++ rsTrim b.ret_finally ++ "\n"
      else
        (if b.ret_prelude.length > 0 then
          (if b.ts_ret.isSome then "const ret = " else "") ++ invoc ++ ";\n"
            ++ rsTrim b.ret_prelude ++ "\n"
        else (if b.ts_ret.isSome then "const ret = " else "") ++ invoc ++ ";\n")), ?_⟩
    rw [← h, htrim]
    by_cases hp : b.args_prelude.length > 0 <;>
      by_cases hd : cx.debug <;> by_cases hcat : b.catch_ <;>
      simp [applyIf, wrapHandleError, wrapLogError, hp, hd, hcat, String.append_assoc]

/-- **C8, witness**: with catch mode on, debug on, and a non-empty finally
accumulator, the three regions nest handleError-innermost,
logError-in-between, finally-outermost. -/
theorem C8_witness :
    ∃ out core,
      Builder.finalize
        { Builder.new with
            catch_ := true
            ret_js := "ret"
            ts_ret := some ⟨"number", "ret", false⟩
            finally_ := "wasm.__wbindgen_free(ptr0, len0);\n"
            function_args := ["arg0"] }
        ⟨true, [], fun _ => 0⟩ "wasm.foo(arg0)" = some out ∧
      out = "(arg0) \x7b\n"
        ++ applyIf true (wrapFinallyBlock "wasm.__wbindgen_free(ptr0, len0);")
            (applyIf true wrapLogError (applyIf true wrapHandleError core))
        ++ "\x7d" := by
  have h : Builder.finalize
      { Builder.new with
          catch_ := true
          ret_js := "ret"
          ts_ret := some ⟨"number", "ret", false⟩
          finally_ := "wasm.__wbindgen_free(ptr0, len0);\n"
          function_args := ["arg0"] }
      ⟨true, [], fun _ => 0⟩ "wasm.foo(arg0)"
      = some ((Builder.finalize
        { Builder.new with
            catch_ := true
            ret_js := "ret"
            ts_ret := some ⟨"number", "ret", false⟩
            finally_ := "wasm.__wbindgen_free(ptr0, len0);\n"
            function_args := ["arg0"] }
        ⟨true, [], fun _ => 0⟩ "wasm.foo(arg0)").getD "") := rfl
  obtain ⟨core, hcore⟩ := C8_finalize_wrapping _ _ _ _ (Or.inr (by decide)) h
  exact ⟨_, core, h, hcore⟩

/-! ## Lemmas about `Builder::process` (claims C3, C9) -/

theorem outptrLoadsGo_valid :
    ∀ (list : List ValType) (cx : Context) (exposed : List ValType) (loads : List String)
      (rp : String) (i : Nat),
      (∀ ty ∈ list, ty.validAggregate = true) →
      ∃ rp' cx', outptrLoadsGo cx exposed loads rp i list =
        .ok (loads ++ (list.enumFrom i).map
          (fun p => s!"{memViewName p.2}[retptr / {memViewSize p.2} + {p.1}]"), rp', cx')
  | [], cx, exposed, loads, rp, i, _ => ⟨rp, cx, by simp [outptrLoadsGo]⟩
  | ty :: rest, cx, exposed, loads, rp, i, hvalid => by
    have hty : ty.validAggregate = true := hvalid ty (by simp)
    have hrest : ∀ t ∈ rest, t.validAggregate = true := fun t ht => hvalid t (by simp [ht])
    cases ty with
    | i32 =>
      rw [outptrLoadsGo]
      rcases hix : (if ValType.i32 ∈ exposed then (exposed, rp, cx)
        else (ValType.i32 :: exposed, rp ++ "const memi32 = getInt32Memory();\n",
          cx.expose_int32_memory)) with ⟨e', rp1, cx1⟩
      obtain ⟨rp2, cx2, hrec⟩ := outptrLoadsGo_valid rest cx1 e'
        _ rp1 (i + 1) hrest
      refine ⟨rp2, cx2, ?_⟩
      dsimp only
      rw [hrec]
      simp [memViewName, memViewSize, List.enumFrom]
    | f32 =>
      rw [outptrLoadsGo]
      rcases hix : (if ValType.f32 ∈ exposed then (exposed, rp, cx)
        else (ValType.f32 :: exposed, rp ++ "const memf32 = getFloat32Memory();\n",
          cx.expose_f32_memory)) with ⟨e', rp1, cx1⟩
      obtain ⟨rp2, cx2, hrec⟩ := outptrLoadsGo_valid rest cx1 e'
        _ rp1 (i + 1) hrest
      refine ⟨rp2, cx2, ?_⟩
      dsimp only
      rw [hrec]
      simp [memViewName, memViewSize, List.enumFrom]
    | f64 =>
      rw [outptrLoadsGo]
      rcases hix : (if ValType.f64 ∈ exposed then (exposed, rp, cx)
        else (ValType.f64 :: exposed, rp ++ "const memf64 = getFloat64Memory();\n",
          cx.expose_f64_memory)) with ⟨e', rp1, cx1⟩
      obtain ⟨rp2, cx2, hrec⟩ := outptrLoadsGo_valid rest cx1 e'
        _ rp1 (i + 1) hrest
      refine ⟨rp2, cx2, ?_⟩
      dsimp only
      rw [hrec]
      simp [memViewName, memViewSize, List.enumFrom]
    | i64 => cases hty
    | v128 => cases hty
    | anyref => cases hty

theorem outptrLoadsGo_invalid :
    ∀ (list : List ValType) (cx : Context) (exposed : List ValType) (loads : List String)
      (rp : String) (i : Nat) (ty : ValType),
      ty ∈ list → ty.validAggregate = false →
      outptrLoadsGo cx exposed loads rp i list = .error "invalid aggregate return type"
  | [], _, _, _, _, _, ty, hmem, _ => absurd hmem (by simp)
  | t :: rest, cx, exposed, loads, rp, i, ty, hmem, hbad => by
    rcases List.mem_cons.mp hmem with hh | ht
    · subst hh
      cases ty with
      | i32 => cases hbad
      | f32 => cases hbad
      | f64 => cases hbad
      | i64 => rw [outptrLoadsGo] <;> simp
      | v128 => rw [outptrLoadsGo] <;> simp
      | anyref => rw [outptrLoadsGo] <;> simp
    · cases t with
      | i32 =>
        rw [outptrLoadsGo]
        rcases hix : (if ValType.i32 ∈ exposed then (exposed, rp, cx)
          else (ValType.i32 :: exposed, rp ++ "const memi32 = getInt32Memory();\n",
            cx.expose_int32_memory)) with ⟨e', rp1, cx1⟩
        exact outptrLoadsGo_invalid rest cx1 e' _ rp1 (i + 1) ty ht hbad
      | f32 =>
        rw [outptrLoadsGo]
        rcases hix : (if ValType.f32 ∈ exposed then (exposed, rp, cx)
          else (ValType.f32 :: exposed, rp ++ "const memf32 = getFloat32Memory();\n",
            cx.expose_f32_memory)) with ⟨e', rp1, cx1⟩
        exact outptrLoadsGo_invalid rest cx1 e' _ rp1 (i + 1) ty ht hbad
      | f64 =>
        rw [outptrLoadsGo]
        rcases hix : (if ValType.f64 ∈ exposed then (exposed, rp, cx)
          else (ValType.f64 :: exposed, rp ++ "const memf64 = getFloat64Memory();\n",
            cx.expose_f64_memory)) with ⟨e', rp1, cx1⟩
        exact outptrLoadsGo_invalid rest cx1 e' _ rp1 (i + 1) ty ht hbad
      | i64 => rfl
      | v128 => rfl
      | anyref => rfl

theorem finishRet_preserves {b : Builder} {cx : Context} {js : JsBuilder}
    {b' : Builder} {cx' : Context} (h : Builder.finishRet b cx js = .ok (b', cx')) :
    b'.args_prelude = b.args_prelude ∧ b'.ts_args = b.ts_args ∧
    b'.function_args = b.function_args := by
  unfold Builder.finishRet at h
  split at h
  · cases h
  · injection h with h
    cases h
    exact ⟨rfl, rfl, rfl⟩

theorem processRet_preserves {Instr WTy : Type} {b : Builder} {cx : Context}
    {inc : IncomingEval Instr WTy} {out : OutgoingEval Instr} {binding : Binding Instr}
    {webidl : WebidlFunction WTy} {ia : Bool} {b' : Builder} {cx' : Context}
    (h : Builder.processRet b cx inc out binding webidl ia = .ok (b', cx')) :
    b'.args_prelude = b.args_prelude ∧ b'.ts_args = b.ts_args ∧
    b'.function_args = b.function_args := by
  unfold Builder.processRet at h
  split at h
  · -- incoming-args mode
    rcases houtptr : binding.return_via_outptr with _ | list <;> rw [houtptr] at h
    · -- no out-pointer: single `ret` input
      dsimp only at h
      rcases hog : binding.outgoing with _ | ⟨o, og⟩ <;> rw [hog] at h
      · cases h
      · dsimp only at h
        rcases hev : out o (JsBuilder.new ["ret"]) cx with e | ⟨ret_js, js, cx2⟩ <;>
          rw [hev] at h
        · cases h
        · dsimp only at h
          obtain ⟨h1, h2, h3⟩ := finishRet_preserves h
          exact ⟨by simpa using h1, by simpa using h2, by simpa using h3⟩
    · -- out-pointer loads
      dsimp only at h
      rcases hload : outptrLoads cx list with e | ⟨loads, rp, cx2⟩ <;> rw [hload] at h
      · cases h
      · dsimp only at h
        rcases hog : binding.outgoing with _ | ⟨o, og⟩ <;> rw [hog] at h
        · cases h
        · dsimp only at h
          rcases hev : out o (JsBuilder.new loads) cx2 with e | ⟨ret_js, js, cx3⟩ <;>
            rw [hev] at h
          · cases h
          · dsimp only at h
            obtain ⟨h1, h2, h3⟩ := finishRet_preserves h
            exact ⟨by simpa using h1, by simpa using h2, by simpa using h3⟩
  · -- outgoing-args mode
    rcases hic : binding.incoming with _ | ⟨i0, irest⟩ <;> rw [hic] at h
    · cases h
    · dsimp only at h
      rcases hev : inc (match webidl.result with | some r => [r] | Option.none => [])
          i0 (JsBuilder.new ["ret"]) cx with e | ⟨ret_js, js, cx2⟩ <;> rw [hev] at h
      · cases h
      · dsimp only at h
        rcases houtptr : binding.return_via_outptr with _ | list <;> rw [houtptr] at h
        · -- single value written into ret_js
          dsimp only at h
          rcases hrj : ret_js with _ | ⟨e0, rj⟩ <;> rw [hrj] at h
          · cases h
          · rcases rj with _ | ⟨e1, rj'⟩
            · dsimp only at h
              obtain ⟨h1, h2, h3⟩ := finishRet_preserves h
              exact ⟨by simpa using h1, by simpa using h2, by simpa using h3⟩
            · cases h
        · -- out-pointer stores
          dsimp only at h
          split at h
          · rcases hst : outptrStores cx2 list 0 with e | ⟨stores, cx3⟩ <;> rw [hst] at h
            · cases h
            · dsimp only at h
              obtain ⟨h1, h2, h3⟩ := finishRet_preserves h
              exact ⟨by simpa using h1, by simpa using h2, by simpa using h3⟩
          · cases h

theorem processFinish_ok {b : Builder} {cx : Context} {invoke : InvokeFn}
    {b' : Builder} {cx' : Context} {s : String}
    (h : Builder.processFinish b cx invoke = .ok (b', cx', s)) :
    ∃ cx₂ p e, invoke cx b.args_prelude b.invoc_args = .ok (cx₂, p, e) ∧
      b' = { b with args_prelude := p } := by
  unfold Builder.processFinish at h
  rcases hinv : invoke cx b.args_prelude b.invoc_args with e | ⟨cx₂, p, ev⟩ <;>
    rw [hinv] at h
  · cases h
  · dsimp only at h
    rcases hfin : Builder.finalize { b with args_prelude := p } cx₂ ev with _ | s0 <;>
      rw [hfin] at h
    · cases h
    · injection h with h
      cases h
      exact ⟨cx', p, ev, rfl, rfl⟩

theorem processArgs_ok_incoming {Instr WTy : Type} {b : Builder} {cx : Context}
    {inc : IncomingEval Instr WTy} {out : OutgoingEval Instr} {binding : Binding Instr}
    {webidl : WebidlFunction WTy} {explicit : Option (List String)}
    {b₁ : Builder} {cx₁ : Context}
    (h : Builder.processArgs b cx inc out binding webidl true explicit = .ok (b₁, cx₁)) :
    ∃ rest invocArgs js,
      genNames (webidl.params.length - (b.synthArgNames binding).length) explicit = .ok rest ∧
      runIncoming (inc webidl.params) binding.incoming
        (JsBuilder.new (b.synthArgNames binding ++ rest)) cx = .ok (invocArgs, js, cx₁) ∧
      b₁ = Builder.mergeArgs
        { b with
            args_prelude := b.args_prelude ++ b.synthPrelude binding
            function_args := b.function_args ++ rest
            invoc_args := b.invoc_args ++ invocArgs } js := by
  unfold Builder.processArgs at h
  dsimp only at h
  rcases hgen : genNames (webidl.params.length - (b.synthArgNames binding).length) explicit
    with e | rest <;> rw [hgen] at h
  · cases h
  · dsimp only at h
    rcases hrun : runIncoming (inc webidl.params) binding.incoming
      (JsBuilder.new (b.synthArgNames binding ++ rest)) cx with e | ⟨invocArgs, js, cx2⟩ <;>
      rw [hrun] at h
    · cases h
    · dsimp only at h
      injection h with h
      cases h
      exact ⟨rest, invocArgs, js, rfl, hrun, rfl⟩

theorem processArgs_ok_outgoing {Instr WTy : Type} {b : Builder} {cx : Context}
    {inc : IncomingEval Instr WTy} {out : OutgoingEval Instr} {binding : Binding Instr}
    {webidl : WebidlFunction WTy} {explicit : Option (List String)}
    {b₁ : Builder} {cx₁ : Context}
    (h : Builder.processArgs b cx inc out binding webidl false explicit = .ok (b₁, cx₁)) :
    ∃ invocArgs js,
      runOutgoing out
        (binding.outgoing.drop (if (binding.return_via_outptr).isSome then 1 else 0))
        (JsBuilder.new ((List.range (cx.module_types_params binding.wasm_ty)).map
          fun i => s!"arg{i}")) cx = .ok (invocArgs, js, cx₁) ∧
      b₁ = Builder.mergeArgs
        { b with
            function_args := b.function_args
              ++ (List.range (cx.module_types_params binding.wasm_ty)).map (fun i => s!"arg{i}")
            invoc_args := b.invoc_args ++ invocArgs } js := by
  unfold Builder.processArgs at h
  dsimp only at h
  rcases hrun : runOutgoing out
      (binding.outgoing.drop (if (binding.return_via_outptr).isSome then 1 else 0))
      (JsBuilder.new ((List.range (cx.module_types_params binding.wasm_ty)).map
        fun i => s!"arg{i}")) cx with e | ⟨invocArgs, js, cx2⟩ <;> rw [hrun] at h
  · cases h
  · dsimp only at h
    injection h with h
    cases h
    exact ⟨invocArgs, js, rfl, rfl⟩

theorem processArgs_prelude_incoming {Instr WTy : Type} {b : Builder} {cx : Context}
    {inc : IncomingEval Instr WTy} {out : OutgoingEval Instr} {binding : Binding Instr}
    {webidl : WebidlFunction WTy} {explicit : Option (List String)}
    {b₁ : Builder} {cx₁ : Context}
    (h : Builder.processArgs b cx inc out binding webidl true explicit = .ok (b₁, cx₁))
    (houtptr : (binding.return_via_outptr).isSome = true) :
    ∃ r, b₁.args_prelude = b.args_prelude ++ ("const retptr = 8;\n" ++ r) := by
  obtain ⟨rest, invocArgs, js, hgen, hrun, hb⟩ := processArgs_ok_incoming h
  subst hb
  refine ⟨(match b.method with
      | some true => "const ptr = this.ptr;\nthis.ptr = 0;\n"
      | some false => ""
      | Option.none => "") ++ js.prelude, ?_⟩
  simp [Builder.mergeArgs, Builder.synthPrelude, houtptr, String.append_assoc]

theorem processArgs_ts_len {Instr WTy : Type} {b : Builder} {cx : Context}
    {inc : IncomingEval Instr WTy} {out : OutgoingEval Instr} {binding : Binding Instr}
    {webidl : WebidlFunction WTy} {ia : Bool} {explicit : Option (List String)}
    {b₁ : Builder} {cx₁ : Context}
    (hts : b.ts_args = []) (hfa : b.function_args = [])
    (hinc : ∀ (names : List String) (r : List String × JsBuilder × Context),
      runIncoming (inc webidl.params) binding.incoming (JsBuilder.new names) cx = .ok r →
      r.2.1.typescript.length = names.length)
    (hout : ∀ (names : List String) (r : List String × JsBuilder × Context),
      runOutgoing out
        (binding.outgoing.drop (if (binding.return_via_outptr).isSome then 1 else 0))
        (JsBuilder.new names) cx = .ok r →
      r.2.1.typescript.length = names.length)
    (h : Builder.processArgs b cx inc out binding webidl ia explicit = .ok (b₁, cx₁)) :
    b₁.ts_args.length = b₁.function_args.length := by
  cases ia
  · obtain ⟨invocArgs, js, hrun, hb⟩ := processArgs_ok_outgoing h
    subst hb
    have hlen := hout _ _ hrun
    simp only at hlen
    simp only [Builder.mergeArgs, hts, hfa, List.nil_append, List.length_drop]
    omega
  · obtain ⟨rest, invocArgs, js, hgen, hrun, hb⟩ := processArgs_ok_incoming h
    subst hb
    have hlen := hinc _ _ hrun
    simp only at hlen
    simp only [Builder.mergeArgs, hts, hfa, List.nil_append, List.length_drop]
    simp only [JsBuilder.new, List.length_append] at hlen
    omega

/-- **C9.**  After every successful `process`, in both modes, the number of
TypeScript argument descriptors equals the number of function-shim formal
arguments: the descriptors of the synthetic this-pointer / return-pointer
parameters are trimmed.  The two evaluator hypotheses state the §4.2
contract that the external Incoming/Outgoing evaluators accumulate one
TypeScript descriptor per argument name of the `JsBuilder` they run on. -/
theorem C9_ts_args_matches_function_args {Instr WTy : Type} (b : Builder) (cx : Context)
    (inc : IncomingEval Instr WTy) (out : OutgoingEval Instr) (binding : Binding Instr)
    (webidl : WebidlFunction WTy) (incoming_args : Bool) (explicit : Option (List String))
    (invoke : InvokeFn) (res : Builder × Context × String)
    (hts : b.ts_args = []) (hfa : b.function_args = [])
    (hinc : ∀ (names : List String) (r : List String × JsBuilder × Context),
      runIncoming (inc webidl.params) binding.incoming (JsBuilder.new names)
        (if cx.debug then cx.expose_log_error else cx) = .ok r →
      r.2.1.typescript.length = names.length)
    (hout : ∀ (names : List String) (r : List String × JsBuilder × Context),
      runOutgoing out
        (binding.outgoing.drop (if (binding.return_via_outptr).isSome then 1 else 0))
        (JsBuilder.new names) (if cx.debug then cx.expose_log_error else cx) = .ok r →
      r.2.1.typescript.length = names.length)
    (h : Builder.process b cx inc out binding webidl incoming_args explicit invoke = .ok res) :
    res.1.ts_args.length = res.1.function_args.length := by
  obtain ⟨b', cx', s⟩ := res
  unfold Builder.process at h
  dsimp only at h
  rcases hpa : Builder.processArgs b (if cx.debug then cx.expose_log_error else cx)
      inc out binding webidl incoming_args explicit with e | ⟨b₁, cx₁⟩ <;> rw [hpa] at h
  · cases h
  · have hb₁ : b₁.ts_args.length = b₁.function_args.length :=
      processArgs_ts_len hts hfa hinc hout hpa
    dsimp only at h
    repeat' split at h
    all_goals first
      | cases h
      | (obtain ⟨cx₂, p, ev, hinv, hb'⟩ := processFinish_ok h
         rw [hb']
         simpa using hb₁)
      | (rename_i hpr
         obtain ⟨pres1, pres2, pres3⟩ := processRet_preserves hpr
         obtain ⟨cx₃, p, ev, hinv, hb'⟩ := processFinish_ok h
         rw [hb']
         simpa [pres2, pres3] using hb₁)

theorem str_empty_append (s : String) : "" ++ s = s :=
  String.ext (by simp [String.data_append])

/-- **C3.**  In incoming-args mode with `return_via_outptr` present:
(1) the args prelude begins with `const retptr = 8;` (provided `invoke` only
appends to the prelude it receives by `&mut`, which every caller does);
(2) for a valid aggregate the values fed to the Outgoing evaluator are
exactly `mem[retptr / s + i]` with `memi32`/`memf32`/`memf64` and s = 4 for
i32 and f32, 8 for f64;
(3) a native type other than i32/f32/f64 in the aggregate makes the load
construction fail with the invalid-aggregate-return-type error, and
(4) that failure makes `process` itself fail with that error. -/
theorem C3_outptr_incoming :
    (∀ (Instr WTy : Type) (b : Builder) (cx : Context) (inc : IncomingEval Instr WTy)
        (out : OutgoingEval Instr) (binding : Binding Instr) (webidl : WebidlFunction WTy)
        (explicit : Option (List String)) (invoke : InvokeFn) (list : List ValType)
        (res : Builder × Context × String),
      b.args_prelude = "" →
      binding.return_via_outptr = some list →
      (∀ c p a r, invoke c p a = .ok r → ∃ s, r.2.1 = p ++ s) →
      Builder.process b cx inc out binding webidl true explicit invoke = .ok res →
      ∃ r, res.1.args_prelude = "const retptr = 8;\n" ++ r)
    ∧ (∀ (cx : Context) (list : List ValType),
      (∀ ty ∈ list, ty.validAggregate = true) →
      ∃ prelude cx', outptrLoads cx list =
        .ok (list.enum.map
          (fun p => s!"{memViewName p.2}[retptr / {memViewSize p.2} + {p.1}]"),
          prelude, cx'))
    ∧ (∀ (cx : Context) (list : List ValType) (ty : ValType),
      ty ∈ list → ty.validAggregate = false →
      outptrLoads cx list = .error "invalid aggregate return type")
    ∧ (∀ (Instr WTy : Type) (b : Builder) (cx : Context) (inc : IncomingEval Instr WTy)
        (out : OutgoingEval Instr) (binding : Binding Instr) (webidl : WebidlFunction WTy)
        (explicit : Option (List String)) (invoke : InvokeFn) (list : List ValType)
        (ty : ValType) (b₁ : Builder) (cx₁ : Context),
      binding.return_via_outptr = some list →
      ty ∈ list → ty.validAggregate = false →
      binding.outgoing.length = 1 →
      Builder.processArgs b (if cx.debug then cx.expose_log_error else cx)
        inc out binding webidl true explicit = .ok (b₁, cx₁) →
      Builder.process b cx inc out binding webidl true explicit invoke
        = .error "invalid aggregate return type") := by
  refine ⟨?_, ?_, ?_, ?_⟩
  · intro Instr WTy b cx inc out binding webidl explicit invoke list res hp houtptr hinv hsucc
    obtain ⟨b', cx', s⟩ := res
    unfold Builder.process at hsucc
    dsimp only at hsucc
    rcases hpa : Builder.processArgs b (if cx.debug then cx.expose_log_error else cx)
        inc out binding webidl true explicit with e | ⟨b₁, cx₁⟩ <;> rw [hpa] at hsucc
    · cases hsucc
    · obtain ⟨r₁, hpre⟩ := processArgs_prelude_incoming hpa (by rw [houtptr]; rfl)
      rw [hp, str_empty_append] at hpre
      dsimp only at hsucc
      repeat' split at hsucc
      all_goals first
        | cases hsucc
        | (obtain ⟨cx₂, p, ev, hinvk, hb'⟩ := processFinish_ok hsucc
           obtain ⟨s', hs'⟩ := hinv _ _ _ _ hinvk
           refine ⟨r₁ ++ s', ?_⟩
           rw [hb']
           simp only at hs' ⊢
           rw [hs', hpre, String.append_assoc])
        | (rename_i hpr
           obtain pres := processRet_preserves hpr
           obtain ⟨cx₂, p, ev, hinvk, hb'⟩ := processFinish_ok hsucc
           obtain ⟨s', hs'⟩ := hinv _ _ _ _ hinvk
           refine ⟨r₁ ++ s', ?_⟩
           rw [hb']
           simp only at hs' ⊢
           rw [hs', pres.1, hpre, String.append_assoc])
  · intro cx list hvalid
    obtain ⟨rp', cx', hgo⟩ := outptrLoadsGo_valid list cx [] [] "" 0 hvalid
    exact ⟨rp', cx', by simpa [outptrLoads, List.enum] using hgo⟩
  · intro cx list ty hmem hbad
    exact outptrLoadsGo_invalid list cx [] [] "" 0 ty hmem hbad
  · intro Instr WTy b cx inc out binding webidl explicit invoke list ty b₁ cx₁
      houtptr hmem hbad hlen hpa
    have hload : outptrLoads cx₁ list = .error "invalid aggregate return type" :=
      outptrLoadsGo_invalid list cx₁ [] [] "" 0 ty hmem hbad
    unfold Builder.process
    dsimp only
    rw [hpa]
    dsimp only
    rw [hlen]
    rw [if_neg (by norm_num), if_pos rfl]
    unfold Builder.processRet
    dsimp only
    rw [houtptr]
    dsimp only
    rw [hload]
    simp

/-- **C3, witness**: a concrete incoming-args binding returning two i32
values through the return pointer. -/
theorem C3_witness :
    ∃ (res : Builder × Context × String) (r : String),
      @Builder.process Nat Nat Builder.new ⟨false, [], fun _ => 2⟩
        (fun _ _ js c => .ok ([], js, c))
        (fun _ js c => .ok ("takeObject(ret)",
          { js with typescript := js.args.map fun n => ⟨"number", n, false⟩ }, c))
        ⟨0, [0], [5], some [.i32, .i32]⟩ ⟨[0, 0, 0], some 0⟩ true none
        (fun c p _ => .ok (c, p, "wasm.foo(arg0, arg1)"))
        = .ok res ∧
      res.1.args_prelude = "const retptr = 8;\n" ++ r := by
  have hOk : (@Builder.process Nat Nat Builder.new ⟨false, [], fun _ => 2⟩
      (fun _ _ js c => .ok ([], js, c))
      (fun _ js c => .ok ("takeObject(ret)",
        { js with typescript := js.args.map fun n => ⟨"number", n, false⟩ }, c))
      ⟨0, [0], [5], some [.i32, .i32]⟩ ⟨[0, 0, 0], some 0⟩ true none
      (fun c p _ => .ok (c, p, "wasm.foo(arg0, arg1)"))).isOk = true := rfl
  rcases hres : @Builder.process Nat Nat Builder.new ⟨false, [], fun _ => 2⟩
      (fun _ _ js c => .ok ([], js, c))
      (fun _ js c => .ok ("takeObject(ret)",
        { js with typescript := js.args.map fun n => ⟨"number", n, false⟩ }, c))
      ⟨0, [0], [5], some [.i32, .i32]⟩ ⟨[0, 0, 0], some 0⟩ true none
      (fun c p _ => .ok (c, p, "wasm.foo(arg0, arg1)")) with e | res
  · rw [hres] at hOk
    cases hOk
  · obtain ⟨r, hr⟩ := C3_outptr_incoming.1 Nat Nat Builder.new ⟨false, [], fun _ => 2⟩
      (fun _ _ js c => .ok ([], js, c))
      (fun _ js c => .ok ("takeObject(ret)",
        { js with typescript := js.args.map fun n => ⟨"number", n, false⟩ }, c))
      ⟨0, [0], [5], some [.i32, .i32]⟩ ⟨[0, 0, 0], some 0⟩ none
      (fun c p _ => .ok (c, p, "wasm.foo(arg0, arg1)")) [.i32, .i32] res rfl rfl
      (by
        intro c p a r hr
        injection hr with hr
        subst hr
        exact ⟨"", (String.append_empty p).symm⟩)
      hres
    exact ⟨res, r, rfl, hr⟩

/-- **C9, witness**: a concrete one-argument incoming-args binding whose
evaluators record one TypeScript descriptor per argument. -/
theorem C9_witness :
    ∃ (res : Builder × Context × String),
      @Builder.process Nat Nat Builder.new ⟨false, [], fun _ => 1⟩
        (fun _ _ js c => .ok (["a"],
          { js with typescript := js.args.map fun n => ⟨"any", n, false⟩ }, c))
        (fun _ js c => .ok ("ret",
          { js with typescript := js.args.map fun n => ⟨"any", n, false⟩ }, c))
        ⟨0, [0], [7], none⟩ ⟨[0], some 0⟩ true none
        (fun c p _ => .ok (c, p, "wasm.foo()"))
        = .ok res ∧
      res.1.ts_args.length = res.1.function_args.length := by
  have hOk : (@Builder.process Nat Nat Builder.new ⟨false, [], fun _ => 1⟩
      (fun _ _ js c => .ok (["a"],
        { js with typescript := js.args.map fun n => ⟨"any", n, false⟩ }, c))
      (fun _ js c => .ok ("ret",
        { js with typescript := js.args.map fun n => ⟨"any", n, false⟩ }, c))
      ⟨0, [0], [7], none⟩ ⟨[0], some 0⟩ true none
      (fun c p _ => .ok (c, p, "wasm.foo()"))).isOk = true := rfl
  rcases hres : @Builder.process Nat Nat Builder.new ⟨false, [], fun _ => 1⟩
      (fun _ _ js c => .ok (["a"],
        { js with typescript := js.args.map fun n => ⟨"any", n, false⟩ }, c))
      (fun _ js c => .ok ("ret",
        { js with typescript := js.args.map fun n => ⟨"any", n, false⟩ }, c))
      ⟨0, [0], [7], none⟩ ⟨[0], some 0⟩ true none
      (fun c p _ => .ok (c, p, "wasm.foo()")) with e | res
  · rw [hres] at hOk
    cases hOk
  · refine ⟨res, rfl, ?_⟩
    refine C9_ts_args_matches_function_args Builder.new ⟨false, [], fun _ => 1⟩
      (fun _ _ js c => .ok (["a"],
        { js with typescript := js.args.map fun n => ⟨"any", n, false⟩ }, c))
      (fun _ js c => .ok ("ret",
        { js with typescript := js.args.map fun n => ⟨"any", n, false⟩ }, c))
      ⟨0, [0], [7], none⟩ ⟨[0], some 0⟩ true none
      (fun c p _ => .ok (c, p, "wasm.foo()")) res rfl rfl ?_ ?_ hres
    · intro names r hr
      simp only [runIncoming] at hr
      injection hr with hr
      subst hr
      simp [JsBuilder.new]
    · intro names r hr
      simp only [List.drop, runOutgoing] at hr
      injection hr with hr
      subst hr
      simp [JsBuilder.new]

/-- **C10, witness**: `indexing_deleter` + `getter` in either order select
the same operation kind. -/
theorem C10_witness :
    OperationKind.tag (operation_kind ⟨[.IndexingDeleter, .Getter none]⟩)
      = OperationKind.tag (operation_kind ⟨[.Getter none, .IndexingDeleter]⟩) :=
  C10_operation_kind_precedence.2 ⟨[.IndexingDeleter, .Getter none]⟩
    ⟨[.Getter none, .IndexingDeleter]⟩ (List.Perm.swap _ _ [])
